import Mathlib

/-!
Shallow embedding of the k-means repository (src/utils/cluster.ts,
src/utils/parse_csv.ts, src/types/cluster_types.ts) and proofs about it.

Modelling conventions:
* JS numbers are modelled as exact rationals (ℚ).  The source only ever
  compares Euclidean distances with each other and with the
  `Number.MAX_SAFE_INTEGER` sentinel; since `Math.sqrt` is strictly monotone
  on nonnegative reals, we model the scan with squared distances compared
  against the squared sentinel, which realises exactly the same comparisons.
* `undefined` fields are `Option`; a JS `throw` is `Except.error` carrying the
  message string.  JS default parameters fire on `undefined`, hence the
  `Option.getD "red"` at call sites that pass a possibly-undefined color.
* `getRandomColor()` is nondeterministic; it is modelled by an explicit color
  oracle parameter (`color : String` for a single draw, `colors : ℕ → String`
  for a stream of draws), which is the only change from the source.
* In-place mutation (`clusters[i].points = ...`, `point.color = ...`,
  `row.d1 = ...`) is modelled by returning the updated values.
* A dedicated JS-float model (`JSNum`, with `nan`) is used where the claims
  are about `0 / 0 = NaN`, which ℚ cannot express.
-/

namespace KMeans

/-- `Number.MAX_SAFE_INTEGER` (2^53 - 1), the sentinel initial value of the
minimum-distance scan in `reassignment_logic` and of the min-scans in
`get_min_max_point_values` / `get_min_max_raw_data`. -/
def MAX_SAFE_INTEGER : ℚ := 2 ^ 53 - 1

/-- `Point` from src/types/cluster_types.ts:
`{ x: number; y: number; color?: string | undefined }`. -/
structure Point where
  x : ℚ
  y : ℚ
  color : Option String
deriving Repr, DecidableEq

/-- `Cluster` from src/types/cluster_types.ts:
`{ points: Point[]; centroid: Point | undefined }`. -/
structure Cluster where
  points : List Point
  centroid : Option Point
deriving Repr, DecidableEq

/-- `average` from src/utils/cluster.ts (lines 36-42): left-fold (`reduce`)
of the coordinate sums starting from `{x: 0, y: 0}`, followed by one division
by `points.length` per coordinate.  The default color is `"red"`. -/
def average (points : List Point) (color : String := "red") : Point :=
  let sum := points.foldl (fun acc point => (acc.1 + point.x, acc.2 + point.y))
    ((0 : ℚ), (0 : ℚ))
  { x := sum.1 / points.length, y := sum.2 / points.length, color := some color }

/-- `re_center` from src/utils/cluster.ts (lines 22-27): throws when the
centroid is undefined, otherwise `average(points, centroid.color)` (a JS
default parameter fires when `centroid.color` is `undefined`). -/
def re_center (cluster : Cluster) : Except String Point :=
  match cluster.centroid with
  | none => .error "Cluster centroid is undefined"
  | some c => .ok (average cluster.points (c.color.getD "red"))

/-- The squared Euclidean distance `dx*dx + dy*dy` between two (defined)
points; the source's `euclideanDistance` is `Math.sqrt` of this. -/
def distSq (p1 p2 : Point) : ℚ :=
  (p2.x - p1.x) * (p2.x - p1.x) + (p2.y - p1.y) * (p2.y - p1.y)

/-- `euclideanDistance` from src/utils/cluster.ts (lines 136-147), in the
squared model: throws when either argument is undefined, otherwise returns
the squared distance (the source returns its square root). -/
def euclideanDistanceSq (p1 p2 : Option Point) : Except String ℚ :=
  match p1, p2 with
  | some p1, some p2 => .ok (distSq p1 p2)
  | _, _ => .error "Point is undefined"

/-- The inner centroid scan of `reassignment_logic` (lines 174-186) for one
point: state is `(min_distance, closestClusterIndex, color)` with initial
value `(MAX_SAFE_INTEGER² , none, some "teal")` (squared model; `none` models
the `-1` sentinel).  Throws at the first undefined centroid; updates the state
exactly when `d < min_distance`. -/
def closest_point_scan (point : Point) :
    List (Option Point) → ℕ → ℚ × Option ℕ × Option String →
      Except String (ℚ × Option ℕ × Option String)
  | [], _, st => .ok st
  | none :: _, _, _ => .error "Cluster centroid is undefined"
  | some centroid :: rest, j, (min_distance, idx, col) =>
      let d := distSq centroid point
      if d < min_distance then
        closest_point_scan point rest (j + 1) (d, some j, centroid.color)
      else
        closest_point_scan point rest (j + 1) (min_distance, idx, col)

/-- The outer point loop of `reassignment_logic` (lines 169-194): for each
point run the centroid scan; if an index was found, overwrite the point's
color with the scanned color and push it onto that bucket of
`newClusterPoints`, otherwise (`closestClusterIndex === -1`) warn and drop
the point. -/
def assign_all (all_centroids : List (Option Point)) :
    List Point → List (List Point) → Except String (List (List Point))
  | [], buckets => .ok buckets
  | point :: rest, buckets =>
      match closest_point_scan point all_centroids 0
        (MAX_SAFE_INTEGER ^ 2, none, some "teal") with
      | .error e => .error e
      | .ok (_, some j, col) =>
          assign_all all_centroids rest
            (buckets.set j (buckets.getD j [] ++ [{ point with color := col }]))
      | .ok (_, none, _) =>
          -- console.warn("Point could not be assigned to any cluster.")
          assign_all all_centroids rest buckets

/-- `reassignment_logic` from src/utils/cluster.ts (lines 157-201): pool all
points, scan all centroids per point, rebuild each cluster's point list from
the buckets (`clusters[i].points = newClusterPoints[i]`), returning the
updated cluster array. -/
def reassignment_logic (clusters : List Cluster) : Except String (List Cluster) :=
  let all_points := (clusters.map Cluster.points).flatten
  let all_centroids := clusters.map Cluster.centroid
  match assign_all all_centroids all_points
    (List.replicate clusters.length []) with
  | .error e => .error e
  | .ok buckets =>
      .ok ((clusters.zip buckets).map fun cb => { cb.1 with points := cb.2 })

/-- `iterate` from src/utils/cluster.ts (lines 211-228): for each cluster in
order, throw if its centroid is undefined, otherwise push a new cluster whose
centroid is `average(points, previous_centroid.color)` (JS default `"red"`
when that color is `undefined`) and whose `points` field is the input
cluster's point list. -/
def iterate : List Cluster → Except String (List Cluster)
  | [] => .ok []
  | cluster :: rest =>
      match cluster.centroid with
      | none => .error "Cluster centroid is undefined"
      | some this_centroid =>
          match iterate rest with
          | .error e => .error e
          | .ok tail =>
              .ok ({ centroid :=
                       some (average cluster.points (this_centroid.color.getD "red")),
                     points := cluster.points } :: tail)

/-! ## Cluster initializers (src/utils/parse_csv.ts) -/

/-- Append a point to the last cluster of the list
(`newClusters[newClusters.length - 1].points.push(point)`); on the empty list
this is a no-op, modelling the `lastCluster === undefined` `continue`. -/
def pushLast : List (List Point) → Point → List (List Point)
  | [], _ => []
  | [c], point => [c ++ [point]]
  | c :: rest, point => c :: pushLast rest point

/-- The element loop shared verbatim by `divide_and_set_clusters` (lines
46-77) and `divide_data_set_clusters` (lines 7-44) of src/utils/parse_csv.ts,
acting on the already-converted points.  State: the clusters built so far,
the counter `i` (incremented only when a point is actually pushed), and the
current color.  The JS test `i % cluster_size === 0` is `NaN === 0`, hence
false, when `cluster_size = 0`; it is modelled as
`cluster_size ≠ 0 ∧ i % cluster_size = 0`.  A fresh cluster also draws a
fresh color from the oracle (`colors css.length` is the draw for the
`css.length`-th cluster); each pushed point's color is overwritten with the
current color (`point.color = color`). -/
def dasc_loop (colors : ℕ → String) (cluster_size : ℕ) :
    List Point → ℕ → String → List (List Point) → List (List Point)
  | [], _, _, css => css
  | point :: rest, i, color, css =>
      if cluster_size ≠ 0 ∧ i % cluster_size = 0 then
        let color' := colors css.length
        dasc_loop colors cluster_size rest (i + 1) color'
          (pushLast (css ++ [[]]) { point with color := some color' })
      else if css.isEmpty then
        -- lastCluster === undefined: continue without incrementing i
        dasc_loop colors cluster_size rest i color css
      else
        dasc_loop colors cluster_size rest (i + 1) color
          (pushLast css { point with color := some color })

/-- The trailing centroid pass of both initializers: a nonempty cluster gets
`centroid = average(points, points[0].color)` (JS default `"red"` when that
color is `undefined`); an empty cluster keeps `centroid = undefined`. -/
def set_centroids (css : List (List Point)) : List Cluster :=
  css.map fun ps =>
    match ps with
    | [] => { points := ps, centroid := none }
    | p0 :: _ => { points := ps, centroid := some (average ps (p0.color.getD "red")) }

/-- `divide_and_set_clusters` from src/utils/parse_csv.ts (lines 46-77). -/
def divide_and_set_clusters (colors : ℕ → String) (points : List Point)
    (cluster_size : ℕ) : List Cluster :=
  set_centroids (dasc_loop colors cluster_size points 0 "" [])

/-- A parsed CSV row `Record<"index" | "d1" | "d2", string>`; the string
fields `d1`/`d2` carry the numeric value `parseFloat` returns for them. -/
structure CsvRow where
  index : String
  d1 : ℚ
  d2 : ℚ
deriving Repr, DecidableEq

/-- `divide_data_set_clusters` from src/utils/parse_csv.ts (lines 7-44):
identical control flow to `divide_and_set_clusters`, with each row converted
to the point `{x: parseFloat(row.d1), y: parseFloat(row.d2), color}` as it is
pushed (the conversion is inlined here as a preliminary `map`; the loop then
overwrites the color with the current cluster color exactly as the source
builds the point with `color: color`). -/
def divide_data_set_clusters (colors : ℕ → String) (my_data : List CsvRow)
    (cluster_size : ℕ := 10) : List Cluster :=
  set_centroids (dasc_loop colors cluster_size
    (my_data.map fun row => { x := row.d1, y := row.d2, color := none }) 0 "" [])

/-! ## Normalizer (src/utils/cluster.ts lines 301-362) -/

/-- A raw field value `string | number`; a string field carries the numeric
value `parseFloat` returns for it. -/
inductive RVal where
  | str (v : ℚ)
  | num (v : ℚ)
deriving Repr, DecidableEq

/-- `typeof v !== "number" ? parseFloat(v) : v`. -/
def RVal.toNum : RVal → ℚ
  | .str v => v
  | .num v => v

/-- `RawData` from src/types/cluster_types.ts. -/
structure RawData where
  index : RVal
  d1 : RVal
  d2 : RVal
deriving Repr, DecidableEq

/-- The record returned by `get_min_max_raw_data`. -/
structure MinMax where
  min_x : ℚ
  min_y : ℚ
  max_x : ℚ
  max_y : ℚ
deriving Repr, DecidableEq

/-- The loop of `get_min_max_raw_data` (lines 313-320): coerce `d1`/`d2` in
place (the mutated rows are returned as the second component), fold `min`
into `min_x`/`min_y` and `max` into `max_x`/`max_y`. -/
def gmm_loop : List RawData → MinMax → MinMax × List RawData
  | [], mm => (mm, [])
  | row :: rest, mm =>
      let d1 := row.d1.toNum
      let d2 := row.d2.toNum
      let row' := { row with d1 := .num d1, d2 := .num d2 }
      let mm' : MinMax :=
        { min_x := min mm.min_x d1, min_y := min mm.min_y d2,
          max_x := max mm.max_x d1, max_y := max mm.max_y d2 }
      let res := gmm_loop rest mm'
      (res.1, row' :: res.2)

/-- `get_min_max_raw_data` from src/utils/cluster.ts (lines 301-322):
mins start at `MAX_SAFE_INTEGER`, maxes start at `0`.  Returns the bounds and
the rows as mutated by the loop. -/
def get_min_max_raw_data (data : List RawData) : MinMax × List RawData :=
  gmm_loop data
    { min_x := MAX_SAFE_INTEGER, min_y := MAX_SAFE_INTEGER, max_x := 0, max_y := 0 }

/-- The point-building loop of `normalize_raw_data` (lines 353-360): each
row's `d1`/`d2` are (re-)coerced and then overwritten in place with the
normalized coordinates, which are also pushed as the new point with the
shared batch color. -/
def nrd_loop (color : String) (mm : MinMax) :
    List RawData → List Point × List RawData
  | [] => ([], [])
  | row :: rest =>
      let n1 := (row.d1.toNum - mm.min_x) / (mm.max_x - mm.min_x)
      let n2 := (row.d2.toNum - mm.min_y) / (mm.max_y - mm.min_y)
      let row' := { row with d1 := .num n1, d2 := .num n2 }
      let res := nrd_loop color mm rest
      ({ x := n1, y := n2, color := some color } :: res.1, row' :: res.2)

/-- `normalize_raw_data` from src/utils/cluster.ts (lines 349-362): one
`getRandomColor()` draw per call (the `color` parameter), global bounds from
`get_min_max_raw_data` (whose in-place coercion of the rows is threaded
through), then one normalized point per row.  Returns the points and the
mutated rows. -/
def normalize_raw_data (color : String) (data : List RawData) :
    List Point × List RawData :=
  let mmd := get_min_max_raw_data data
  nrd_loop color mmd.1 mmd.2

/-! ## JS float model (for the `0 / 0 = NaN` behaviour of `average`) -/

/-- A JS `number`: a finite value, an infinity, or `NaN`. -/
inductive JSNum where
  | nan
  | inf
  | ninf
  | num (v : ℚ)
deriving Repr, DecidableEq

/-- JS addition, restricted to the cases that arise (NaN propagates,
opposite infinities give NaN). -/
def jsAdd : JSNum → JSNum → JSNum
  | .nan, _ => .nan
  | _, .nan => .nan
  | .inf, .ninf => .nan
  | .ninf, .inf => .nan
  | .inf, _ => .inf
  | _, .inf => .inf
  | .ninf, _ => .ninf
  | _, .ninf => .ninf
  | .num a, .num b => .num (a + b)

/-- JS division for the cases that arise: `0 / 0 = NaN`, `x / 0 = ±Infinity`
for finite nonzero `x`, NaN propagates, infinity cases as in IEEE-754. -/
def jsDiv : JSNum → JSNum → JSNum
  | .nan, _ => .nan
  | _, .nan => .nan
  | .inf, .num b => if b < 0 then .ninf else .inf
  | .ninf, .num b => if b < 0 then .inf else .ninf
  | .inf, _ => .nan
  | .ninf, _ => .nan
  | .num _, .inf => .num 0
  | .num _, .ninf => .num 0
  | .num a, .num b =>
      if b = 0 then
        if a = 0 then .nan else if a > 0 then .inf else .ninf
      else .num (a / b)

/-- `Point` over JS floats. -/
structure PointJS where
  x : JSNum
  y : JSNum
  color : Option String
deriving Repr, DecidableEq

/-- `Cluster` over JS floats. -/
structure ClusterJS where
  points : List PointJS
  centroid : Option PointJS
deriving Repr, DecidableEq

/-- `average` over JS floats: the same left-fold sum from `{x: 0, y: 0}` and
single division by `points.length`; on an empty list this is `0 / 0 = NaN`
per coordinate. -/
def averageJS (points : List PointJS) (color : String := "red") : PointJS :=
  let sum := points.foldl
    (fun acc point => (jsAdd acc.1 point.x, jsAdd acc.2 point.y))
    ((JSNum.num 0), (JSNum.num 0))
  { x := jsDiv sum.1 (.num points.length),
    y := jsDiv sum.2 (.num points.length),
    color := some color }

/-- `iterate` over JS floats. -/
def iterateJS : List ClusterJS → Except String (List ClusterJS)
  | [] => .ok []
  | cluster :: rest =>
      match cluster.centroid with
      | none => .error "Cluster centroid is undefined"
      | some this_centroid =>
          match iterateJS rest with
          | .error e => .error e
          | .ok tail =>
              .ok ({ centroid :=
                       some (averageJS cluster.points (this_centroid.color.getD "red")),
                     points := cluster.points } :: tail)

/-! ## Spec-side pure form of the reassignment scan -/

/-- The centroid scan restricted to defined centroids: `closest_point_scan`
without the error case. -/
def scanPure (point : Point) : List Point → ℕ → ℚ × Option ℕ × Option String →
    ℚ × Option ℕ × Option String
  | [], _, st => st
  | centroid :: rest, j, (min_distance, idx, col) =>
      let d := distSq centroid point
      if d < min_distance then
        scanPure point rest (j + 1) (d, some j, centroid.color)
      else
        scanPure point rest (j + 1) (min_distance, idx, col)

/-- The index of the cluster the scan of `reassignment_logic` assigns `point`
to (`none` models the `-1` sentinel, i.e. the point is dropped). -/
def assignIdx (cents : List Point) (point : Point) : Option ℕ :=
  (scanPure point cents 0 (MAX_SAFE_INTEGER ^ 2, none, some "teal")).2.1

/-- The color the scan of `reassignment_logic` leaves for `point` (the color
of the chosen centroid). -/
def assignCol (cents : List Point) (point : Point) : Option String :=
  (scanPure point cents 0 (MAX_SAFE_INTEGER ^ 2, none, some "teal")).2.2

/-- The color overwrite `point.color = color` performed by
`reassignment_logic` on an assigned point. -/
def recolor (cents : List Point) (point : Point) : Point :=
  { point with color := assignCol cents point }

/-- The points of the pool that the scan sends to cluster `i`, recolored, in
pool order. -/
def assignedList (cents : List Point) (i : ℕ) (pl : List Point) : List Point :=
  (pl.filter fun p => assignIdx cents p == some i).map (recolor cents)

/-- The flattened point pool `all_points` of a cluster array. -/
def pool (clusters : List Cluster) : List Point :=
  (clusters.map Cluster.points).flatten

/-- Spec-side result of `reassignment_logic` on centroid list `cents` and
pool `pl`: the cluster at offset `i` keeps its centroid and receives
`assignedList cents i pl`. -/
def reassignSpec (cents : List Point) (pl : List Point) : ℕ → List Cluster → List Cluster
  | _, [] => []
  | i, c :: rest =>
      { c with points := assignedList cents i pl } :: reassignSpec cents pl (i + 1) rest

/-- The bucket lists `assignedList cents i pl, …, assignedList cents (i+n-1) pl`. -/
def assignedLists (cents : List Point) (pl : List Point) : ℕ → ℕ → List (List Point)
  | _, 0 => []
  | i, n + 1 => assignedList cents i pl :: assignedLists cents pl (i + 1) n

/-- The in-place coercion a row undergoes in `get_min_max_raw_data`. -/
def coerceRow (r : RawData) : RawData :=
  { r with d1 := .num r.d1.toNum, d2 := .num r.d2.toNum }

/-! ## Scan lemmas -/

theorem closest_point_scan_map_some (p : Point) :
    ∀ (cs : List Point) (j : ℕ) (st : ℚ × Option ℕ × Option String),
      closest_point_scan p (cs.map some) j st = .ok (scanPure p cs j st) := by
  intro cs
  induction cs with
  | nil => intro j st; rfl
  | cons c rest ih =>
      intro j st
      obtain ⟨m, idx, col⟩ := st
      simp only [List.map_cons, closest_point_scan, scanPure]
      by_cases h : distSq c p < m
      · simp only [if_pos h, ih]
      · simp only [if_neg h, ih]

theorem closest_point_scan_error_of_mem (p : Point) :
    ∀ (ocs : List (Option Point)) (j : ℕ) (st : ℚ × Option ℕ × Option String),
      none ∈ ocs →
      closest_point_scan p ocs j st = .error "Cluster centroid is undefined" := by
  intro ocs
  induction ocs with
  | nil => intro j st h; cases h
  | cons oc rest ih =>
      intro j st h
      obtain ⟨m, idx, col⟩ := st
      cases oc with
      | none => rfl
      | some c =>
          have hmem : none ∈ rest := by simpa using h
          simp only [closest_point_scan]
          by_cases hd : distSq c p < m
          · simp only [if_pos hd, ih _ _ hmem]
          · simp only [if_neg hd, ih _ _ hmem]

theorem closest_point_scan_error_eq (p : Point) :
    ∀ (ocs : List (Option Point)) (j : ℕ) (st : ℚ × Option ℕ × Option String) (e : String),
      closest_point_scan p ocs j st = .error e → e = "Cluster centroid is undefined" := by
  intro ocs
  induction ocs with
  | nil => intro j st e h; cases h
  | cons oc rest ih =>
      intro j st e h
      obtain ⟨m, idx, col⟩ := st
      cases oc with
      | none =>
          simp only [closest_point_scan] at h
          cases h
          rfl
      | some c =>
          simp only [closest_point_scan] at h
          by_cases hd : distSq c p < m
          · rw [if_pos hd] at h; exact ih _ _ _ h
          · rw [if_neg hd] at h; exact ih _ _ _ h

theorem eq_map_some_of_not_none_mem {α : Type} :
    ∀ (l : List (Option α)), none ∉ l → ∃ l2 : List α, l = l2.map some := by
  intro l
  induction l with
  | nil => intro _; exact ⟨[], rfl⟩
  | cons oc rest ih =>
      intro h
      cases oc with
      | none => exact absurd (List.mem_cons_self _ _) h
      | some a =>
          obtain ⟨l2, hl2⟩ := ih (fun hm => h (List.mem_cons_of_mem _ hm))
          exact ⟨a :: l2, by simp [hl2]⟩

theorem scanPure_idx_lt (p : Point) :
    ∀ (cs : List Point) (j : ℕ) (m : ℚ) (idx : Option ℕ) (col : Option String) (j0 : ℕ),
      (scanPure p cs j (m, idx, col)).2.1 = some j0 →
      idx = some j0 ∨ (j ≤ j0 ∧ j0 < j + cs.length) := by
  intro cs
  induction cs with
  | nil => intro j m idx col j0 h; exact Or.inl h
  | cons c rest ih =>
      intro j m idx col j0 h
      simp only [scanPure] at h
      by_cases hd : distSq c p < m
      · rw [if_pos hd] at h
        rcases ih (j + 1) _ _ _ _ h with h1 | h2
        · cases h1
          right
          exact ⟨Nat.le_refl j, by simp [Nat.lt_add_of_pos_right]⟩
        · right
          exact ⟨Nat.le_of_succ_le h2.1, by simpa [Nat.add_assoc, Nat.add_comm 1 rest.length] using h2.2⟩
      · rw [if_neg hd] at h
        rcases ih (j + 1) _ _ _ _ h with h1 | h2
        · exact Or.inl h1
        · right
          exact ⟨Nat.le_of_succ_le h2.1, by simpa [Nat.add_assoc, Nat.add_comm 1 rest.length] using h2.2⟩

theorem assignIdx_lt_length (cents : List Point) (p : Point) (j : ℕ)
    (h : assignIdx cents p = some j) : j < cents.length := by
  rcases scanPure_idx_lt p cents 0 _ _ _ j h with h1 | h2
  · cases h1
  · simpa using h2.2

theorem getD_eq_getElem {α : Type} (l : List α) (j : ℕ) (d : α) (h : j < l.length) :
    l.getD j d = l[j] := by
  rw [List.getD_eq_getElem?_getD, List.getElem?_eq_getElem h]
  rfl

theorem assignedList_nil (cents : List Point) (i : ℕ) : assignedList cents i [] = [] := rfl

theorem assignedList_cons (cents : List Point) (i : ℕ) (p : Point) (pl : List Point) :
    assignedList cents i (p :: pl) =
      if assignIdx cents p = some i then recolor cents p :: assignedList cents i pl
      else assignedList cents i pl := by
  simp only [assignedList, List.filter_cons]
  by_cases h : assignIdx cents p = some i
  · simp [h]
  · simp [h]

theorem assign_all_map_some (cents : List Point) :
    ∀ (pl : List Point) (buckets : List (List Point)),
      cents.length ≤ buckets.length →
      ∃ r, assign_all (cents.map some) pl buckets = .ok r ∧
        r.length = buckets.length ∧
        ∀ (k : ℕ) (hk : k < r.length) (hk2 : k < buckets.length),
          r[k] = buckets[k] ++ assignedList cents k pl := by
  intro pl
  induction pl with
  | nil =>
      intro buckets hlen
      refine ⟨buckets, rfl, rfl, ?_⟩
      intro k hk hk2
      simp [assignedList]
  | cons p rest ih =>
      intro buckets hlen
      rcases hsc : scanPure p cents 0 (MAX_SAFE_INTEGER ^ 2, none, some "teal")
        with ⟨m, idx, col⟩
      have hidx : assignIdx cents p = idx := by
        simp [assignIdx, hsc]
      have hcol : assignCol cents p = col := by
        simp [assignCol, hsc]
      cases idx with
      | none =>
          obtain ⟨r, hr, hrlen, hrk⟩ := ih buckets hlen
          refine ⟨r, ?_, hrlen, ?_⟩
          · simp only [assign_all, closest_point_scan_map_some, hsc]
            exact hr
          · intro k hk hk2
            rw [hrk k hk hk2, assignedList_cons]
            rw [if_neg (by simp [hidx])]
      | some j =>
          have hj : j < cents.length := assignIdx_lt_length cents p j hidx
          have hjb : j < buckets.length := Nat.lt_of_lt_of_le hj hlen
          have hrec : ({ p with color := col } : Point) = recolor cents p := by
            simp [recolor, hcol]
          obtain ⟨r, hr, hrlen, hrk⟩ :=
            ih (buckets.set j (buckets.getD j [] ++ [{ p with color := col }]))
              (by simpa using hlen)
          refine ⟨r, ?_, by simpa using hrlen, ?_⟩
          · simp only [assign_all, closest_point_scan_map_some, hsc]
            exact hr
          · intro k hk hk2
            have hk3 : k < (buckets.set j (buckets.getD j [] ++ [{ p with color := col }])).length := by
              simpa using hk2
            rw [hrk k hk hk3, List.getElem_set, assignedList_cons]
            by_cases hkj : j = k
            · subst hkj
              rw [if_pos rfl, if_pos (by rw [hidx]), getD_eq_getElem _ _ _ hjb, hrec]
              simp
            · rw [if_neg hkj, if_neg (by simp [hidx]; omega)]

theorem reassignSpec_length (cents pl : List Point) :
    ∀ (i : ℕ) (cs : List Cluster), (reassignSpec cents pl i cs).length = cs.length := by
  intro i cs
  induction cs generalizing i with
  | nil => rfl
  | cons c rest ih => simp [reassignSpec, ih]

theorem reassignSpec_getElem (cents pl : List Point) :
    ∀ (cs : List Cluster) (i k : ℕ) (hcs : k < cs.length)
      (hk : k < (reassignSpec cents pl i cs).length),
      (reassignSpec cents pl i cs)[k] =
        { cs[k] with points := assignedList cents (i + k) pl } := by
  intro cs
  induction cs with
  | nil => intro i k hcs hk; cases hcs
  | cons c rest ih =>
      intro i k hcs hk
      cases k with
      | zero => simp [reassignSpec]
      | succ k' =>
          have hcs' : k' < rest.length := by simpa using hcs
          have hk' : k' < (reassignSpec cents pl (i + 1) rest).length := by
            simpa [reassignSpec_length] using hcs'
          simp only [reassignSpec, List.getElem_cons_succ]
          rw [ih (i + 1) k' hcs' hk']
          have hik : (i + 1) + k' = i + (k' + 1) := by omega
          rw [hik]

theorem reassignSpec_map_centroid (cents pl : List Point) :
    ∀ (i : ℕ) (cs : List Cluster),
      (reassignSpec cents pl i cs).map Cluster.centroid = cs.map Cluster.centroid := by
  intro i cs
  induction cs generalizing i with
  | nil => rfl
  | cons c rest ih => simp [reassignSpec, ih]

theorem reassignSpec_map_points (cents pl : List Point) :
    ∀ (i : ℕ) (cs : List Cluster),
      (reassignSpec cents pl i cs).map Cluster.points = assignedLists cents pl i cs.length := by
  intro i cs
  induction cs generalizing i with
  | nil => rfl
  | cons c rest ih => simp [reassignSpec, assignedLists, ih]

theorem zip_map_eq_reassignSpec (cents pl : List Point) :
    ∀ (cs : List Cluster) (i : ℕ) (r : List (List Point)),
      r.length = cs.length →
      (∀ k (hk : k < r.length), r[k] = assignedList cents (i + k) pl) →
      (cs.zip r).map (fun cb => { cb.1 with points := cb.2 }) = reassignSpec cents pl i cs := by
  intro cs
  induction cs with
  | nil => intro i r h1 h2; simp [reassignSpec]
  | cons c cs' ih =>
      intro i r h1 h2
      cases r with
      | nil => simp at h1
      | cons b r' =>
          have hb : b = assignedList cents i pl := by
            have := h2 0 (by simp)
            simpa using this
          have h2' : ∀ k (hk : k < r'.length), r'[k] = assignedList cents ((i + 1) + k) pl := by
            intro k hk
            have hk2 : k + 1 < (b :: r').length := by simpa using Nat.succ_lt_succ hk
            have := h2 (k + 1) hk2
            rw [List.getElem_cons_succ] at this
            rw [this]
            congr 1
            omega
          simp only [List.zip_cons_cons, List.map_cons, reassignSpec]
          rw [hb]
          exact congrArg _ (ih (i + 1) r' (by simpa using h1) h2')

theorem reassignment_logic_ok (clusters : List Cluster) (cents : List Point)
    (h : clusters.map Cluster.centroid = cents.map some) :
    reassignment_logic clusters = .ok (reassignSpec cents (pool clusters) 0 clusters) := by
  have hlen : cents.length = clusters.length := by
    have h2 := congrArg List.length h
    simpa using h2.symm
  obtain ⟨r, hr, hrlen, hrk⟩ := assign_all_map_some cents (pool clusters)
    (List.replicate clusters.length []) (by simp [hlen])
  have hpool : (clusters.map Cluster.points).flatten = pool clusters := rfl
  simp only [reassignment_logic, h, hpool, hr]
  refine congrArg Except.ok ?_
  refine zip_map_eq_reassignSpec cents (pool clusters) clusters 0 r
    (by simpa using hrlen) ?_
  intro k hk
  have hk2 : k < (List.replicate clusters.length ([] : List Point)).length := by
    rw [List.length_replicate]
    rw [hrlen, List.length_replicate] at hk
    exact hk
  rw [hrk k hk hk2, List.getElem_replicate]
  simp

/-- Invariant of the centroid scan after processing the first `j` centroids
of `C`: either nothing beat the sentinel yet (all visited squared distances
are `≥ MAX_SAFE_INTEGER ^ 2`), or the state records the first index `j0 < j`
realising the strict minimum over the visited prefix. -/
def ScanInv (p : Point) (C : List Point) (j : ℕ)
    (st : ℚ × Option ℕ × Option String) : Prop :=
  (st.2.1 = none ∧ st.1 = MAX_SAFE_INTEGER ^ 2 ∧
    ∀ k (hk : k < C.length), k < j → ¬ distSq (C.get ⟨k, hk⟩) p < MAX_SAFE_INTEGER ^ 2)
  ∨ (∃ j0, ∃ h0 : j0 < C.length, j0 < j ∧ st.2.1 = some j0 ∧
      st.1 = distSq (C.get ⟨j0, h0⟩) p ∧ st.1 < MAX_SAFE_INTEGER ^ 2 ∧
      st.2.2 = (C.get ⟨j0, h0⟩).color ∧
      (∀ k (hk : k < C.length), k < j → st.1 ≤ distSq (C.get ⟨k, hk⟩) p) ∧
      (∀ k (hk : k < C.length), k < j0 → st.1 < distSq (C.get ⟨k, hk⟩) p))

theorem scanPure_inv (p : Point) (C : List Point) :
    ∀ (L : List Point) (j : ℕ) (st : ℚ × Option ℕ × Option String),
      C.drop j = L → j + L.length = C.length → ScanInv p C j st →
      ScanInv p C C.length (scanPure p L j st) := by
  intro L
  induction L with
  | nil =>
      intro j st hdrop hlen hinv
      have hj : j = C.length := by simpa using hlen
      rw [hj] at hinv
      exact hinv
  | cons c L2 ih =>
      intro j st hdrop hlen hinv
      have hjlen : j < C.length := by
        simp only [List.length_cons] at hlen
        omega
      have hdrop2 := List.drop_eq_getElem_cons hjlen
      rw [hdrop] at hdrop2
      injection hdrop2 with hc hL2
      have hlen2 : (j + 1) + L2.length = C.length := by
        simp only [List.length_cons] at hlen
        omega
      obtain ⟨m, idx, col⟩ := st
      have hcget : ∀ hk : j < C.length, C.get ⟨j, hk⟩ = c := by
        intro hk
        rw [List.get_eq_getElem]
        exact hc.symm
      simp only [scanPure]
      by_cases hd : distSq c p < m
      · rw [if_pos hd]
        refine ih (j + 1) _ hL2.symm hlen2 (Or.inr ⟨j, hjlen, Nat.lt_succ_self j, rfl, ?_, ?_, ?_, ?_, ?_⟩)
        · show distSq c p = distSq (C.get ⟨j, hjlen⟩) p
          rw [hcget hjlen]
        · show distSq c p < MAX_SAFE_INTEGER ^ 2
          rcases hinv with ⟨_, hm, _⟩ | ⟨j0, h0, _, _, _, hms, _, _, _⟩
          · have hm2 : m = MAX_SAFE_INTEGER ^ 2 := hm
            rw [hm2] at hd
            exact hd
          · have hms2 : m < MAX_SAFE_INTEGER ^ 2 := hms
            exact lt_trans hd hms2
        · show c.color = (C.get ⟨j, hjlen⟩).color
          rw [hcget hjlen]
        · intro k hk hkj
          show distSq c p ≤ distSq (C.get ⟨k, hk⟩) p
          rcases Nat.lt_or_ge k j with hkj2 | hkj2
          · rcases hinv with ⟨_, hm, h3⟩ | ⟨j0, h0, _, _, _, _, _, hb1, _⟩
            · have h4 := h3 k hk hkj2
              have hm2 : m = MAX_SAFE_INTEGER ^ 2 := hm
              rw [hm2] at hd
              exact le_of_lt (lt_of_lt_of_le hd (not_lt.mp h4))
            · have hb1k : m ≤ distSq (C.get ⟨k, hk⟩) p := hb1 k hk hkj2
              exact le_of_lt (lt_of_lt_of_le hd hb1k)
          · have hkeq : k = j := by omega
            subst hkeq
            rw [hcget hk]
        · intro k hk hkj
          show distSq c p < distSq (C.get ⟨k, hk⟩) p
          rcases hinv with ⟨_, hm, h3⟩ | ⟨j0, h0, _, _, _, _, _, hb1, _⟩
          · have h4 := h3 k hk hkj
            have hm2 : m = MAX_SAFE_INTEGER ^ 2 := hm
            rw [hm2] at hd
            exact lt_of_lt_of_le hd (not_lt.mp h4)
          · have hb1k : m ≤ distSq (C.get ⟨k, hk⟩) p := hb1 k hk hkj
            exact lt_of_lt_of_le hd hb1k
      · rw [if_neg hd]
        refine ih (j + 1) _ hL2.symm hlen2 ?_
        rcases hinv with ⟨h1, h2, h3⟩ | ⟨j0, h0, hj0, hidx, hm, hms, hcol, hb1, hb2⟩
        · refine Or.inl ⟨h1, h2, ?_⟩
          intro k hk hkj
          rcases Nat.lt_or_ge k j with hkj2 | hkj2
          · exact h3 k hk hkj2
          · have hkeq : k = j := by omega
            subst hkeq
            have h2m : m = MAX_SAFE_INTEGER ^ 2 := h2
            rw [hcget hk, ← h2m]
            exact hd
        · refine Or.inr ⟨j0, h0, by omega, hidx, hm, hms, hcol, ?_, hb2⟩
          intro k hk hkj
          show m ≤ distSq (C.get ⟨k, hk⟩) p
          rcases Nat.lt_or_ge k j with hkj2 | hkj2
          · exact hb1 k hk hkj2
          · have hkeq : k = j := by omega
            subst hkeq
            rw [hcget hk]
            exact not_lt.mp hd

theorem scanInv_init (p : Point) (cents : List Point) :
    ScanInv p cents 0 (MAX_SAFE_INTEGER ^ 2, none, some "teal") :=
  Or.inl ⟨rfl, rfl, fun k _ hk => absurd hk (Nat.not_lt_zero k)⟩

theorem scanInv_final (p : Point) (cents : List Point) :
    ScanInv p cents cents.length
      (scanPure p cents 0 (MAX_SAFE_INTEGER ^ 2, none, some "teal")) :=
  scanPure_inv p cents cents 0 _ (List.drop_zero cents) (by simp) (scanInv_init p cents)

theorem assignIdx_spec_some (cents : List Point) (p : Point) (j : ℕ)
    (h : assignIdx cents p = some j) :
    ∃ hj : j < cents.length,
      distSq (cents.get ⟨j, hj⟩) p < MAX_SAFE_INTEGER ^ 2 ∧
      (∀ k (hk : k < cents.length),
        distSq (cents.get ⟨j, hj⟩) p ≤ distSq (cents.get ⟨k, hk⟩) p) ∧
      (∀ k (hk : k < cents.length), k < j →
        distSq (cents.get ⟨j, hj⟩) p < distSq (cents.get ⟨k, hk⟩) p) ∧
      assignCol cents p = (cents.get ⟨j, hj⟩).color := by
  rcases scanInv_final p cents with ⟨h1, _, _⟩ | ⟨j0, h0, _, hidx, hm, hms, hcol, hb1, hb2⟩
  · rw [assignIdx, h1] at h
    cases h
  · have hj0 : j0 = j := by
      rw [assignIdx, hidx] at h
      exact Option.some.inj h
    subst hj0
    refine ⟨h0, ?_, ?_, ?_, ?_⟩
    · rw [← hm]; exact hms
    · intro k hk
      rw [← hm]
      exact hb1 k hk hk
    · intro k hk hkj
      rw [← hm]
      exact hb2 k hk hkj
    · rw [assignCol, hcol]

theorem assignIdx_none_spec (cents : List Point) (p : Point)
    (h : assignIdx cents p = none) :
    ∀ k (hk : k < cents.length), ¬ distSq (cents.get ⟨k, hk⟩) p < MAX_SAFE_INTEGER ^ 2 := by
  rcases scanInv_final p cents with ⟨_, _, h3⟩ | ⟨j0, h0, _, hidx, _⟩
  · intro k hk
    exact h3 k hk hk
  · rw [assignIdx, hidx] at h
    cases h

theorem assignIdx_isSome_of (cents : List Point) (p : Point) (k : ℕ)
    (hk : k < cents.length)
    (hlt : distSq (cents.get ⟨k, hk⟩) p < MAX_SAFE_INTEGER ^ 2) :
    ∃ j, assignIdx cents p = some j := by
  cases hidx : assignIdx cents p with
  | none => exact absurd hlt (assignIdx_none_spec cents p hidx k hk)
  | some j => exact ⟨j, rfl⟩

theorem scanPure_coord (p q : Point) (hx : q.x = p.x) (hy : q.y = p.y) :
    ∀ (L : List Point) (j : ℕ) (st : ℚ × Option ℕ × Option String),
      scanPure q L j st = scanPure p L j st := by
  intro L
  have hdist : ∀ c : Point, distSq c q = distSq c p := by
    intro c
    simp [distSq, hx, hy]
  induction L with
  | nil => intro j st; rfl
  | cons c rest ih =>
      intro j st
      obtain ⟨m, idx, col⟩ := st
      simp only [scanPure, hdist]
      by_cases hd : distSq c p < m
      · rw [if_pos hd, if_pos hd, ih]
      · rw [if_neg hd, if_neg hd, ih]

theorem assignIdx_recolor (cents cents2 : List Point) (p : Point) :
    assignIdx cents2 (recolor cents p) = assignIdx cents2 p := by
  simp only [assignIdx]
  rw [scanPure_coord p (recolor cents p) rfl rfl]

theorem assignCol_recolor (cents cents2 : List Point) (p : Point) :
    assignCol cents2 (recolor cents p) = assignCol cents2 p := by
  simp only [assignCol]
  rw [scanPure_coord p (recolor cents p) rfl rfl]

theorem recolor_recolor (cents : List Point) (p : Point) :
    recolor cents (recolor cents p) = recolor cents p := by
  have h := assignCol_recolor cents cents p
  simp only [recolor]
  exact congrArg _ h

theorem assignedList_append (cents : List Point) (i : ℕ) (xs ys : List Point) :
    assignedList cents i (xs ++ ys) = assignedList cents i xs ++ assignedList cents i ys := by
  simp [assignedList, List.filter_append, List.map_append]

theorem assignedList_assignedList (cents : List Point) (i j : ℕ) (pl : List Point) :
    assignedList cents i (assignedList cents j pl) =
      if i = j then assignedList cents j pl else [] := by
  unfold assignedList
  rw [List.filter_map]
  have hcomp : ((fun p => assignIdx cents p == some i) ∘ recolor cents) =
      fun p => assignIdx cents p == some i := by
    funext p
    simp [Function.comp, assignIdx_recolor]
  rw [hcomp, List.filter_filter]
  by_cases hij : i = j
  · subst hij
    rw [if_pos rfl]
    have hfil : ∀ pl2 : List Point,
        (pl2.filter fun p => (assignIdx cents p == some i) && (assignIdx cents p == some i)) =
          pl2.filter fun p => assignIdx cents p == some i := by
      intro pl2
      apply List.filter_congr
      intro p _
      cases assignIdx cents p == some i <;> rfl
    rw [hfil, List.map_map]
    apply List.map_congr_left
    intro p _
    simp [Function.comp, recolor_recolor]
  · rw [if_neg hij]
    have hfil : (pl.filter fun p => (assignIdx cents p == some i) && (assignIdx cents p == some j)) = [] := by
      rw [List.filter_eq_nil_iff]
      intro p _
      cases h : assignIdx cents p with
      | none => simp
      | some k =>
          by_cases hk : k = i
          · subst hk
            simp [hij]
          · simp [hk]
    rw [hfil]
    rfl

theorem assignedList_flatten (cents : List Point) (i : ℕ) :
    ∀ (Ls : List (List Point)),
      assignedList cents i Ls.flatten = (Ls.map (assignedList cents i)).flatten := by
  intro Ls
  induction Ls with
  | nil => rfl
  | cons L rest ih =>
      simp [List.flatten_cons, assignedList_append, ih]

theorem assignedLists_length (cents pl : List Point) :
    ∀ (n i : ℕ), (assignedLists cents pl i n).length = n := by
  intro n
  induction n with
  | zero => intro i; rfl
  | succ n2 ih => intro i; simp [assignedLists, ih]

theorem assignedList_assignedLists_vanish (cents pl : List Point) :
    ∀ (n i0 i : ℕ), i < i0 →
      assignedList cents i (assignedLists cents pl i0 n).flatten = [] := by
  intro n
  induction n with
  | zero => intro i0 i _; rfl
  | succ n2 ih =>
      intro i0 i hi
      simp only [assignedLists, List.flatten_cons, assignedList_append]
      rw [assignedList_assignedList, if_neg (by omega), ih (i0 + 1) i (by omega)]
      rfl

theorem assignedList_assignedLists (cents pl : List Point) :
    ∀ (n i0 i : ℕ), i0 ≤ i → i < i0 + n →
      assignedList cents i (assignedLists cents pl i0 n).flatten = assignedList cents i pl := by
  intro n
  induction n with
  | zero => intro i0 i h1 h2; omega
  | succ n2 ih =>
      intro i0 i h1 h2
      simp only [assignedLists, List.flatten_cons, assignedList_append]
      by_cases hi : i = i0
      · subst hi
        rw [assignedList_assignedList, if_pos rfl,
          assignedList_assignedLists_vanish cents pl n2 (i + 1) i (by omega)]
        simp
      · rw [assignedList_assignedList, if_neg hi, ih (i0 + 1) i (by omega) (by omega)]
        simp

/-! ## Error-path lemmas -/

theorem closest_point_scan_ok_of_not_mem (p : Point) :
    ∀ (ocs : List (Option Point)) (j : ℕ) (st : ℚ × Option ℕ × Option String),
      none ∉ ocs → ∃ st2, closest_point_scan p ocs j st = .ok st2 := by
  intro ocs
  induction ocs with
  | nil => intro j st _; exact ⟨st, rfl⟩
  | cons oc rest ih =>
      intro j st h
      obtain ⟨m, idx, col⟩ := st
      cases oc with
      | none => exact absurd (List.mem_cons_self _ _) h
      | some c =>
          have hmem : none ∉ rest := fun hm => h (List.mem_cons_of_mem _ hm)
          simp only [closest_point_scan]
          by_cases hd : distSq c p < m
          · rw [if_pos hd]; exact ih _ _ hmem
          · rw [if_neg hd]; exact ih _ _ hmem

theorem assign_all_error_of_mem (ocs : List (Option Point)) (h : none ∈ ocs)
    (p : Point) (rest : List Point) (buckets : List (List Point)) :
    assign_all ocs (p :: rest) buckets = .error "Cluster centroid is undefined" := by
  simp only [assign_all, closest_point_scan_error_of_mem p ocs 0 _ h]

theorem assign_all_ok_of_not_mem (ocs : List (Option Point)) (h : none ∉ ocs) :
    ∀ (pl : List Point) (buckets : List (List Point)),
      ∃ r, assign_all ocs pl buckets = .ok r := by
  intro pl
  induction pl with
  | nil => intro buckets; exact ⟨buckets, rfl⟩
  | cons p rest ih =>
      intro buckets
      obtain ⟨⟨m, idx, col⟩, hsc⟩ := closest_point_scan_ok_of_not_mem p ocs 0
        (MAX_SAFE_INTEGER ^ 2, none, some "teal") h
      cases idx with
      | none =>
          obtain ⟨r, hr⟩ := ih buckets
          exact ⟨r, by simp only [assign_all, hsc]; exact hr⟩
      | some j =>
          obtain ⟨r, hr⟩ := ih (buckets.set j (buckets.getD j [] ++ [{ p with color := col }]))
          exact ⟨r, by simp only [assign_all, hsc]; exact hr⟩

theorem assign_all_error_eq (ocs : List (Option Point)) :
    ∀ (pl : List Point) (buckets : List (List Point)) (e : String),
      assign_all ocs pl buckets = .error e → e = "Cluster centroid is undefined" := by
  intro pl
  induction pl with
  | nil => intro buckets e h; cases h
  | cons p rest ih =>
      intro buckets e h
      cases hsc : closest_point_scan p ocs 0 (MAX_SAFE_INTEGER ^ 2, none, some "teal") with
      | error e2 =>
          simp only [assign_all, hsc] at h
          cases h
          exact closest_point_scan_error_eq p ocs 0 _ e hsc
      | ok st =>
          obtain ⟨m, idx, col⟩ := st
          cases idx with
          | none =>
              simp only [assign_all, hsc] at h
              exact ih _ _ h
          | some j =>
              simp only [assign_all, hsc] at h
              exact ih _ _ h

theorem assign_all_length (ocs : List (Option Point)) :
    ∀ (pl : List Point) (buckets r : List (List Point)),
      assign_all ocs pl buckets = .ok r → r.length = buckets.length := by
  intro pl
  induction pl with
  | nil =>
      intro buckets r h
      cases h
      rfl
  | cons p rest ih =>
      intro buckets r h
      cases hsc : closest_point_scan p ocs 0 (MAX_SAFE_INTEGER ^ 2, none, some "teal") with
      | error e2 =>
          simp only [assign_all, hsc] at h
          exact Except.noConfusion h
      | ok st =>
          obtain ⟨m, idx, col⟩ := st
          cases idx with
          | none =>
              simp only [assign_all, hsc] at h
              exact ih _ _ h
          | some j =>
              simp only [assign_all, hsc] at h
              have := ih _ _ h
              simpa using this

theorem zip_map_points_map_centroid :
    ∀ (cs : List Cluster) (r : List (List Point)), r.length = cs.length →
      ((cs.zip r).map (fun cb => { cb.1 with points := cb.2 })).map Cluster.centroid =
        cs.map Cluster.centroid := by
  intro cs
  induction cs with
  | nil => intro r h; simp
  | cons c cs2 ih =>
      intro r h
      cases r with
      | nil => simp at h
      | cons b r2 =>
          simp only [List.zip_cons_cons, List.map_cons]
          rw [ih r2 (by simpa using h)]

theorem reassignment_logic_ok_centroids (cs D : List Cluster)
    (h : reassignment_logic cs = .ok D) :
    D.map Cluster.centroid = cs.map Cluster.centroid := by
  cases hr : assign_all (cs.map Cluster.centroid) ((cs.map Cluster.points).flatten)
      (List.replicate cs.length []) with
  | error e =>
      simp only [reassignment_logic, hr] at h
      exact Except.noConfusion h
  | ok r =>
      simp only [reassignment_logic, hr] at h
      cases h
      have hlen : r.length = cs.length := by
        have := assign_all_length _ _ _ _ hr
        simpa using this
      exact zip_map_points_map_centroid cs r hlen

theorem reassignment_logic_error_iff (cs : List Cluster) :
    reassignment_logic cs = .error "Cluster centroid is undefined" ↔
      (none ∈ cs.map Cluster.centroid ∧ pool cs ≠ []) := by
  constructor
  · intro h
    by_cases hmem : none ∈ cs.map Cluster.centroid
    · refine ⟨hmem, ?_⟩
      intro hpool
      have hpool2 : (cs.map Cluster.points).flatten = [] := hpool
      rw [reassignment_logic] at h
      rw [hpool2] at h
      simp only [assign_all] at h
      exact Except.noConfusion h
    · obtain ⟨r, hr⟩ := assign_all_ok_of_not_mem (cs.map Cluster.centroid) hmem
        ((cs.map Cluster.points).flatten) (List.replicate cs.length [])
      simp only [reassignment_logic, hr] at h
      exact Except.noConfusion h
  · rintro ⟨hmem, hpool⟩
    have hpool2 : (cs.map Cluster.points).flatten ≠ [] := hpool
    cases hp : (cs.map Cluster.points).flatten with
    | nil => exact absurd hp hpool2
    | cons p rest =>
        rw [reassignment_logic]
        rw [hp, assign_all_error_of_mem _ hmem]

theorem reassignment_logic_error_eq (cs : List Cluster) (e : String)
    (h : reassignment_logic cs = .error e) : e = "Cluster centroid is undefined" := by
  cases hr : assign_all (cs.map Cluster.centroid) ((cs.map Cluster.points).flatten)
      (List.replicate cs.length []) with
  | error e2 =>
      simp only [reassignment_logic, hr] at h
      cases h
      exact assign_all_error_eq _ _ _ _ hr
  | ok r =>
      simp only [reassignment_logic, hr] at h
      exact Except.noConfusion h

/-! ## `iterate` lemmas -/

theorem iterate_eq_map (cs : List Cluster) (h : ∀ c ∈ cs, c.centroid.isSome) :
    iterate cs = .ok (cs.map fun c =>
      { points := c.points,
        centroid := c.centroid.map fun p0 => average c.points (p0.color.getD "red") }) := by
  induction cs with
  | nil => rfl
  | cons c rest ih =>
      obtain ⟨q, hq⟩ := Option.isSome_iff_exists.mp (h c (List.mem_cons_self _ _))
      have hrest := ih fun c2 hc2 => h c2 (List.mem_cons_of_mem _ hc2)
      simp only [iterate, hq, hrest, List.map_cons]
      rfl

theorem iterate_ok_isSome :
    ∀ (cs D : List Cluster), iterate cs = .ok D → ∀ c ∈ cs, c.centroid.isSome := by
  intro cs
  induction cs with
  | nil => intro D _ c hc; cases hc
  | cons c rest ih =>
      intro D h c2 hc2
      cases hq : c.centroid with
      | none =>
          simp only [iterate, hq] at h
          exact Except.noConfusion h
      | some q =>
          rcases List.mem_cons.mp hc2 with heq | hmem
          · subst heq
            simp [hq]
          · cases ht : iterate rest with
            | error e =>
                simp only [iterate, hq, ht] at h
                exact Except.noConfusion h
            | ok tail => exact ih tail ht c2 hmem

theorem iterate_ok_eq (cs D : List Cluster) (h : iterate cs = .ok D) :
    D = cs.map fun c =>
      { points := c.points,
        centroid := c.centroid.map fun p0 => average c.points (p0.color.getD "red") } := by
  have h2 := iterate_eq_map cs (iterate_ok_isSome cs D h)
  rw [h] at h2
  exact Except.ok.inj h2

/-! ## `average` as the coordinate-wise mean -/

theorem foldl_sum_pair :
    ∀ (pts : List Point) (a b : ℚ),
      pts.foldl (fun acc point => (acc.1 + point.x, acc.2 + point.y)) (a, b) =
        (a + (pts.map Point.x).sum, b + (pts.map Point.y).sum) := by
  intro pts
  induction pts with
  | nil => intro a b; simp
  | cons p rest ih =>
      intro a b
      simp only [List.foldl_cons, List.map_cons, List.sum_cons, ih]
      rw [add_assoc, add_assoc]

theorem average_eq (pts : List Point) (color : String) :
    average pts color =
      { x := (pts.map Point.x).sum / pts.length,
        y := (pts.map Point.y).sum / pts.length,
        color := some color } := by
  simp only [average]
  rw [foldl_sum_pair]
  simp

/-! ## Initializer lemmas -/

theorem pushLast_ne_nil (css : List (List Point)) (p : Point) (h : css ≠ []) :
    pushLast css p ≠ [] := by
  cases css with
  | nil => exact absurd rfl h
  | cons c rest =>
      cases rest with
      | nil => simp [pushLast]
      | cons c2 rest2 => simp [pushLast]

theorem pushLast_sum :
    ∀ (css : List (List Point)) (p : Point), css ≠ [] →
      ((pushLast css p).map List.length).sum = (css.map List.length).sum + 1 := by
  intro css
  induction css with
  | nil => intro p h; exact absurd rfl h
  | cons c rest ih =>
      intro p _
      cases rest with
      | nil => simp [pushLast]
      | cons c2 rest2 =>
          have h2 := ih p (by simp)
          simp only [pushLast, List.map_cons, List.sum_cons, h2]
          omega

theorem dasc_loop_sum (colors : ℕ → String) (n : ℕ) (hn : n ≠ 0) :
    ∀ (pts : List Point) (i : ℕ) (color : String) (css : List (List Point)),
      (i % n = 0 ∨ css ≠ []) →
      ((dasc_loop colors n pts i color css).map List.length).sum =
        (css.map List.length).sum + pts.length := by
  intro pts
  induction pts with
  | nil => intro i color css _; simp [dasc_loop]
  | cons p rest ih =>
      intro i color css hdis
      by_cases hc : i % n = 0
      · rw [dasc_loop, if_pos ⟨hn, hc⟩]
        have hne : css ++ [[]] ≠ ([] : List (List Point)) := by simp
        have h1 := ih (i + 1) (colors css.length)
          (pushLast (css ++ [[]]) { p with color := some (colors css.length) })
          (Or.inr (pushLast_ne_nil _ _ hne))
        have h2 := pushLast_sum (css ++ [[]])
          { p with color := some (colors css.length) } hne
        have h3 : ((css ++ [[]]).map List.length).sum = (css.map List.length).sum := by
          simp
        rw [h1, h2, h3, List.length_cons]
        omega
      · have hcss : css ≠ [] := by
          rcases hdis with h1 | h2
          · exact absurd h1 hc
          · exact h2
        rw [dasc_loop, if_neg (by intro hcontra; exact hc hcontra.2)]
        rw [if_neg (by simp [List.isEmpty_iff]; exact hcss)]
        have h1 := ih (i + 1) color (pushLast css { p with color := some color })
          (Or.inr (pushLast_ne_nil _ _ hcss))
        have h2 := pushLast_sum css { p with color := some color } hcss
        rw [h1, h2, List.length_cons]
        omega

theorem dasc_loop_zero (colors : ℕ → String) :
    ∀ (pts : List Point) (i : ℕ) (color : String),
      dasc_loop colors 0 pts i color [] = [] := by
  intro pts
  induction pts with
  | nil => intro i color; rfl
  | cons p rest ih =>
      intro i color
      rw [dasc_loop, if_neg (by intro hcontra; exact hcontra.1 rfl)]
      rw [if_pos (by simp)]
      exact ih i color

theorem set_centroids_sum (css : List (List Point)) :
    ((set_centroids css).map (fun c => c.points.length)).sum = (css.map List.length).sum := by
  induction css with
  | nil => rfl
  | cons ps rest ih =>
      cases ps with
      | nil => simp [set_centroids] at ih ⊢; exact ih
      | cons p0 pr => simp [set_centroids] at ih ⊢; exact ih

theorem set_centroids_mem (css : List (List Point)) (c : Cluster)
    (hmem : c ∈ set_centroids css) (hne : c.points ≠ []) :
    ∃ p0 pr, c.points = p0 :: pr ∧
      c.centroid = some (average c.points (p0.color.getD "red")) := by
  obtain ⟨ps, _, hc⟩ := List.mem_map.mp hmem
  cases ps with
  | nil =>
      rw [← hc] at hne
      simp [set_centroids] at hne
  | cons p0 pr =>
      refine ⟨p0, pr, ?_, ?_⟩
      · rw [← hc]
      · rw [← hc]

/-! ## Normalizer lemmas -/

theorem gmm_loop_snd :
    ∀ (data : List RawData) (mm : MinMax), (gmm_loop data mm).2 = data.map coerceRow := by
  intro data
  induction data with
  | nil => intro mm; rfl
  | cons row rest ih =>
      intro mm
      simp only [gmm_loop, List.map_cons, ih]
      rfl

theorem gmm_loop_fst :
    ∀ (data : List RawData) (mm : MinMax),
      (gmm_loop data mm).1 =
        { min_x := (data.map fun r => r.d1.toNum).foldl min mm.min_x,
          min_y := (data.map fun r => r.d2.toNum).foldl min mm.min_y,
          max_x := (data.map fun r => r.d1.toNum).foldl max mm.max_x,
          max_y := (data.map fun r => r.d2.toNum).foldl max mm.max_y } := by
  intro data
  induction data with
  | nil => intro mm; rfl
  | cons row rest ih =>
      intro mm
      simp only [gmm_loop, List.map_cons, List.foldl_cons, ih]

theorem foldl_min_le_init : ∀ (l : List ℚ) (a : ℚ), l.foldl min a ≤ a := by
  intro l
  induction l with
  | nil => intro a; exact le_refl a
  | cons x rest ih =>
      intro a
      exact le_trans (ih (min a x)) (min_le_left a x)

theorem foldl_min_le_mem : ∀ (l : List ℚ) (a x : ℚ), x ∈ l → l.foldl min a ≤ x := by
  intro l
  induction l with
  | nil => intro a x h; cases h
  | cons y rest ih =>
      intro a x h
      rcases List.mem_cons.mp h with heq | hmem
      · subst heq
        exact le_trans (foldl_min_le_init rest (min a x)) (min_le_right a x)
      · exact ih (min a y) x hmem

theorem foldl_min_eq_init_or_mem :
    ∀ (l : List ℚ) (a : ℚ), l.foldl min a = a ∨ l.foldl min a ∈ l := by
  intro l
  induction l with
  | nil => intro a; exact Or.inl rfl
  | cons y rest ih =>
      intro a
      rcases ih (min a y) with heq | hmem
      · rw [List.foldl_cons, heq]
        rcases min_choice a y with h1 | h2
        · exact Or.inl h1
        · exact Or.inr (by rw [h2]; exact List.mem_cons_self _ _)
      · exact Or.inr (List.mem_cons_of_mem _ hmem)

theorem foldl_max_ge_init : ∀ (l : List ℚ) (a : ℚ), a ≤ l.foldl max a := by
  intro l
  induction l with
  | nil => intro a; exact le_refl a
  | cons x rest ih =>
      intro a
      exact le_trans (le_max_left a x) (ih (max a x))

theorem foldl_max_ge_mem : ∀ (l : List ℚ) (a x : ℚ), x ∈ l → x ≤ l.foldl max a := by
  intro l
  induction l with
  | nil => intro a x h; cases h
  | cons y rest ih =>
      intro a x h
      rcases List.mem_cons.mp h with heq | hmem
      · subst heq
        exact le_trans (le_max_right a x) (foldl_max_ge_init rest (max a x))
      · exact ih (max a y) x hmem

theorem foldl_max_eq_init_or_mem :
    ∀ (l : List ℚ) (a : ℚ), l.foldl max a = a ∨ l.foldl max a ∈ l := by
  intro l
  induction l with
  | nil => intro a; exact Or.inl rfl
  | cons y rest ih =>
      intro a
      rcases ih (max a y) with heq | hmem
      · rw [List.foldl_cons, heq]
        rcases max_choice a y with h1 | h2
        · exact Or.inl h1
        · exact Or.inr (by rw [h2]; exact List.mem_cons_self _ _)
      · exact Or.inr (List.mem_cons_of_mem _ hmem)

theorem nrd_loop_fst (color : String) (mm : MinMax) :
    ∀ (data : List RawData),
      (nrd_loop color mm data).1 = data.map fun r =>
        ({ x := (r.d1.toNum - mm.min_x) / (mm.max_x - mm.min_x),
           y := (r.d2.toNum - mm.min_y) / (mm.max_y - mm.min_y),
           color := some color } : Point) := by
  intro data
  induction data with
  | nil => rfl
  | cons row rest ih =>
      simp only [nrd_loop, List.map_cons, ih]

theorem nrd_loop_snd (color : String) (mm : MinMax) :
    ∀ (data : List RawData),
      (nrd_loop color mm data).2 = data.map fun r =>
        { r with d1 := .num ((r.d1.toNum - mm.min_x) / (mm.max_x - mm.min_x)),
                 d2 := .num ((r.d2.toNum - mm.min_y) / (mm.max_y - mm.min_y)) } := by
  intro data
  induction data with
  | nil => rfl
  | cons row rest ih =>
      simp only [nrd_loop, List.map_cons, ih]

theorem coerceRow_toNum_d1 (r : RawData) : (coerceRow r).d1.toNum = r.d1.toNum := rfl

theorem coerceRow_toNum_d2 (r : RawData) : (coerceRow r).d2.toNum = r.d2.toNum := rfl

theorem normalize_raw_data_fst (color : String) (data : List RawData) :
    (normalize_raw_data color data).1 = data.map fun r =>
      ({ x := (r.d1.toNum - (get_min_max_raw_data data).1.min_x) /
              ((get_min_max_raw_data data).1.max_x - (get_min_max_raw_data data).1.min_x),
         y := (r.d2.toNum - (get_min_max_raw_data data).1.min_y) /
              ((get_min_max_raw_data data).1.max_y - (get_min_max_raw_data data).1.min_y),
         color := some color } : Point) := by
  have hsnd : (get_min_max_raw_data data).2 = data.map coerceRow :=
    gmm_loop_snd data _
  simp only [normalize_raw_data, hsnd, nrd_loop_fst, List.map_map]
  rfl

theorem normalize_raw_data_snd (color : String) (data : List RawData) :
    (normalize_raw_data color data).2 = data.map fun r =>
      { index := r.index,
        d1 := RVal.num ((r.d1.toNum - (get_min_max_raw_data data).1.min_x) /
              ((get_min_max_raw_data data).1.max_x - (get_min_max_raw_data data).1.min_x)),
        d2 := RVal.num ((r.d2.toNum - (get_min_max_raw_data data).1.min_y) /
              ((get_min_max_raw_data data).1.max_y - (get_min_max_raw_data data).1.min_y)) } := by
  have hsnd : (get_min_max_raw_data data).2 = data.map coerceRow :=
    gmm_loop_snd data _
  simp only [normalize_raw_data, hsnd, nrd_loop_snd, List.map_map]
  rfl

/-! ## Point-count preservation across reassignment -/

theorem assignedLists_sum_nil (cents : List Point) :
    ∀ (n i : ℕ), ((assignedLists cents [] i n).map List.length).sum = 0 := by
  intro n
  induction n with
  | zero => intro i; rfl
  | succ n2 ih =>
      intro i
      simp only [assignedLists, List.map_cons, List.sum_cons, ih, assignedList_nil]
      rfl

theorem assignedLists_sum_cons_skip (cents : List Point) (p : Point) (pl : List Point)
    (j : ℕ) (hj : assignIdx cents p = some j) :
    ∀ (n i : ℕ), j < i ∨ i + n ≤ j →
      ((assignedLists cents (p :: pl) i n).map List.length).sum =
        ((assignedLists cents pl i n).map List.length).sum := by
  intro n
  induction n with
  | zero => intro i _; rfl
  | succ n2 ih =>
      intro i hrange
      have hne : assignIdx cents p ≠ some i := by
        rw [hj]
        intro hcontra
        have : j = i := Option.some.inj hcontra
        omega
      simp only [assignedLists, List.map_cons, List.sum_cons]
      rw [assignedList_cons, if_neg hne, ih (i + 1) (by omega)]

theorem assignedLists_sum_cons_mem (cents : List Point) (p : Point) (pl : List Point)
    (j : ℕ) (hj : assignIdx cents p = some j) :
    ∀ (n i : ℕ), i ≤ j → j < i + n →
      ((assignedLists cents (p :: pl) i n).map List.length).sum =
        ((assignedLists cents pl i n).map List.length).sum + 1 := by
  intro n
  induction n with
  | zero => intro i h1 h2; omega
  | succ n2 ih =>
      intro i h1 h2
      simp only [assignedLists, List.map_cons, List.sum_cons]
      by_cases hij : j = i
      · subst hij
        rw [assignedList_cons, if_pos hj,
          assignedLists_sum_cons_skip cents p pl j hj n2 (j + 1) (by omega)]
        simp only [List.length_cons]
        omega
      · have hne : assignIdx cents p ≠ some i := by
          rw [hj]
          intro hcontra
          exact hij (Option.some.inj hcontra)
        rw [assignedList_cons, if_neg hne, ih (i + 1) (by omega) (by omega)]
        omega

theorem assignedLists_sum_total (cents : List Point) :
    ∀ (pl : List Point) (n : ℕ),
      (∀ p ∈ pl, ∃ j, assignIdx cents p = some j ∧ j < n) →
      ((assignedLists cents pl 0 n).map List.length).sum = pl.length := by
  intro pl
  induction pl with
  | nil => intro n _; exact assignedLists_sum_nil cents n 0
  | cons p rest ih =>
      intro n h
      obtain ⟨j, hj, hjn⟩ := h p (List.mem_cons_self _ _)
      rw [assignedLists_sum_cons_mem cents p rest j hj n 0 (Nat.zero_le j) (by omega)]
      rw [ih n fun q hq => h q (List.mem_cons_of_mem _ hq)]
      rfl

theorem not_none_mem_map_iff (cs : List Cluster) :
    none ∉ cs.map Cluster.centroid ↔ ∀ c ∈ cs, c.centroid.isSome := by
  constructor
  · intro h c hc
    cases hcen : c.centroid with
    | none =>
        exact absurd (List.mem_map.mpr ⟨c, hc, hcen⟩) h
    | some q => rfl
  · intro h hmem
    obtain ⟨c, hc, hcen⟩ := List.mem_map.mp hmem
    have := h c hc
    rw [hcen] at this
    cases this

theorem reassignment_preserves_count (cs : List Cluster) (cents : List Point)
    (hmap : cs.map Cluster.centroid = cents.map some)
    (hrange : ∀ p ∈ pool cs, ∃ k, ∃ hk : k < cents.length,
      distSq (cents.get ⟨k, hk⟩) p < MAX_SAFE_INTEGER ^ 2) :
    ∃ D, reassignment_logic cs = .ok D ∧
      (D.map fun c => c.points.length).sum = (cs.map fun c => c.points.length).sum := by
  have hlen : cents.length = cs.length := by
    have h2 := congrArg List.length hmap
    simpa using h2.symm
  refine ⟨reassignSpec cents (pool cs) 0 cs, reassignment_logic_ok cs cents hmap, ?_⟩
  have hmp : (reassignSpec cents (pool cs) 0 cs).map Cluster.points =
      assignedLists cents (pool cs) 0 cs.length := reassignSpec_map_points cents (pool cs) 0 cs
  have h1 : ((reassignSpec cents (pool cs) 0 cs).map fun c => c.points.length) =
      ((reassignSpec cents (pool cs) 0 cs).map Cluster.points).map List.length := by
    rw [List.map_map]
    rfl
  have h2 : ((cs.map fun c => c.points.length)) = (cs.map Cluster.points).map List.length := by
    rw [List.map_map]
    rfl
  rw [h1, h2, hmp]
  rw [assignedLists_sum_total cents (pool cs) cs.length ?_]
  · rw [← List.length_flatten]
    rfl
  · intro p hp
    obtain ⟨k, hk, hlt⟩ := hrange p hp
    obtain ⟨j, hjip⟩ := assignIdx_isSome_of cents p k hk hlt
    exact ⟨j, hjip, by rw [← hlen]; exact assignIdx_lt_length cents p j hjip⟩

/-! ## The reassign-iterate cycle as a fixed point -/

theorem map_points_of_iterate_shape (D : List Cluster) :
    (D.map fun c =>
      ({ points := c.points,
         centroid := c.centroid.map fun p0 => average c.points (p0.color.getD "red") } : Cluster)).map
      Cluster.points = D.map Cluster.points := by
  rw [List.map_map]
  rfl

theorem cycle_fixed_point_aux (cs D C1 : List Cluster)
    (hr : reassignment_logic cs = .ok D) (hi : iterate D = .ok C1)
    (hc : C1.map Cluster.centroid = cs.map Cluster.centroid) :
    reassignment_logic C1 = .ok D ∧ iterate D = .ok C1 := by
  have hDcent : D.map Cluster.centroid = cs.map Cluster.centroid :=
    reassignment_logic_ok_centroids cs D hr
  have hDsome : ∀ c ∈ D, c.centroid.isSome := iterate_ok_isSome D C1 hi
  have hnotmem : none ∉ cs.map Cluster.centroid := by
    rw [← hDcent]
    exact (not_none_mem_map_iff D).mpr hDsome
  obtain ⟨cents, hcents⟩ := eq_map_some_of_not_none_mem _ hnotmem
  have hcentlen : cents.length = cs.length := by
    have h2 := congrArg List.length hcents
    simpa using h2.symm
  have hrspec := reassignment_logic_ok cs cents hcents
  rw [hr] at hrspec
  have hD : D = reassignSpec cents (pool cs) 0 cs := Except.ok.inj hrspec
  have hC1 : C1 = D.map fun c =>
      { points := c.points,
        centroid := c.centroid.map fun p0 => average c.points (p0.color.getD "red") } :=
    iterate_ok_eq D C1 hi
  have hC1cent : C1.map Cluster.centroid = cents.map some := by
    rw [hc]
    exact hcents
  have hr2 := reassignment_logic_ok C1 cents hC1cent
  have hDlen : D.length = cs.length := by
    rw [hD, reassignSpec_length]
  have hC1len : C1.length = cs.length := by
    rw [hC1, List.length_map, hDlen]
  have hpoolC1 : pool C1 = pool D := by
    simp only [pool]
    rw [hC1, map_points_of_iterate_shape]
  have hpoolD : pool D = (assignedLists cents (pool cs) 0 cs.length).flatten := by
    simp only [pool]
    rw [hD, reassignSpec_map_points]
    rfl
  have hspec_eq : reassignSpec cents (pool C1) 0 C1 = reassignSpec cents (pool cs) 0 cs := by
    apply List.ext_getElem
    · rw [reassignSpec_length, reassignSpec_length, hC1len]
    · intro k hk1 hk2
      have hkC1 : k < C1.length := by
        rw [reassignSpec_length] at hk1
        exact hk1
      have hkcs : k < cs.length := by
        rw [reassignSpec_length] at hk2
        exact hk2
      have haL : assignedList cents (0 + k) (pool C1) = assignedList cents (0 + k) (pool cs) := by
        rw [hpoolC1, hpoolD]
        exact assignedList_assignedLists cents (pool cs) cs.length 0 (0 + k)
          (by omega) (by omega)
      have hcentk : C1[k].centroid = cs[k].centroid := by
        have hmapk := congrArg (fun l => l[k]?) hc
        simp only [List.getElem?_map] at hmapk
        have h1 : C1[k]? = some C1[k] := List.getElem?_eq_getElem hkC1
        have h2 : cs[k]? = some cs[k] := List.getElem?_eq_getElem hkcs
        rw [h1, h2] at hmapk
        simpa using hmapk
      rw [reassignSpec_getElem cents (pool C1) C1 0 k hkC1 hk1,
        reassignSpec_getElem cents (pool cs) cs 0 k hkcs hk2]
      show Cluster.mk (assignedList cents (0 + k) (pool C1)) (C1[k].centroid) =
        Cluster.mk (assignedList cents (0 + k) (pool cs)) (cs[k].centroid)
      rw [haL, hcentk]
  rw [hspec_eq, ← hD] at hr2
  exact ⟨hr2, hi⟩

/-! ## Claim theorems -/

/-- Claim C1: for every cluster with at least one point, the centroid
computed by `average` — and hence by `re_center`, by `iterate`, and by both
initializers — equals the coordinate-wise arithmetic mean of the cluster's
points: `x` is the fold-sum of the `x`s divided by the number of points, and
likewise for `y`. -/
theorem centroid_is_coordinatewise_mean :
    (∀ (pts : List Point) (color : String), pts ≠ [] →
      (average pts color).x = (pts.map Point.x).sum / pts.length ∧
      (average pts color).y = (pts.map Point.y).sum / pts.length)
    ∧ (∀ (cluster : Cluster) (q : Point), cluster.centroid = some q →
        cluster.points ≠ [] →
        ∃ p, re_center cluster = .ok p ∧
          p.x = (cluster.points.map Point.x).sum / cluster.points.length ∧
          p.y = (cluster.points.map Point.y).sum / cluster.points.length)
    ∧ (∀ (cs D : List Cluster), iterate cs = .ok D →
        ∀ (k : ℕ) (hk : k < D.length), (D.get ⟨k, hk⟩).points ≠ [] →
          ∃ p, (D.get ⟨k, hk⟩).centroid = some p ∧
            p.x = ((D.get ⟨k, hk⟩).points.map Point.x).sum / (D.get ⟨k, hk⟩).points.length ∧
            p.y = ((D.get ⟨k, hk⟩).points.map Point.y).sum / (D.get ⟨k, hk⟩).points.length)
    ∧ (∀ (colors : ℕ → String) (pts : List Point) (n : ℕ) (c : Cluster),
        c ∈ divide_and_set_clusters colors pts n → c.points ≠ [] →
        ∃ p, c.centroid = some p ∧
          p.x = (c.points.map Point.x).sum / c.points.length ∧
          p.y = (c.points.map Point.y).sum / c.points.length)
    ∧ (∀ (colors : ℕ → String) (rows : List CsvRow) (n : ℕ) (c : Cluster),
        c ∈ divide_data_set_clusters colors rows n → c.points ≠ [] →
        ∃ p, c.centroid = some p ∧
          p.x = (c.points.map Point.x).sum / c.points.length ∧
          p.y = (c.points.map Point.y).sum / c.points.length) := by
  refine ⟨?_, ?_, ?_, ?_, ?_⟩
  · intro pts color _
    rw [average_eq]
    exact ⟨rfl, rfl⟩
  · intro cluster q hq _
    refine ⟨average cluster.points (q.color.getD "red"), ?_, ?_, ?_⟩
    · simp [re_center, hq]
    · rw [average_eq]
    · rw [average_eq]
  · intro cs D h k hk hne2
    have hD := iterate_ok_eq cs D h
    have hmem2 : D[k] ∈ cs.map fun c =>
        ({ points := c.points,
           centroid := c.centroid.map fun p0 => average c.points (p0.color.getD "red") } : Cluster) := by
      rw [← hD]
      exact List.getElem_mem hk
    obtain ⟨c, hc, hfc⟩ := List.mem_map.mp hmem2
    obtain ⟨q, hq⟩ := Option.isSome_iff_exists.mp (iterate_ok_isSome cs D h c hc)
    rw [show D.get ⟨k, hk⟩ = D[k] from rfl]
    refine ⟨average c.points (q.color.getD "red"), ?_, ?_, ?_⟩
    · rw [← hfc]
      show c.centroid.map (fun p0 => average c.points (p0.color.getD "red")) =
        some (average c.points (q.color.getD "red"))
      rw [hq]
      rfl
    · rw [← hfc]
      show (average c.points (q.color.getD "red")).x =
        ((c.points.map Point.x).sum) / c.points.length
      rw [average_eq]
    · rw [← hfc]
      show (average c.points (q.color.getD "red")).y =
        ((c.points.map Point.y).sum) / c.points.length
      rw [average_eq]
  · intro colors pts n c hmem hne
    obtain ⟨p0, pr, _, hcen⟩ := set_centroids_mem _ c hmem hne
    refine ⟨average c.points (p0.color.getD "red"), hcen, ?_, ?_⟩
    · rw [average_eq]
    · rw [average_eq]
  · intro colors rows n c hmem hne
    obtain ⟨p0, pr, _, hcen⟩ := set_centroids_mem _ c hmem hne
    refine ⟨average c.points (p0.color.getD "red"), hcen, ?_, ?_⟩
    · rw [average_eq]
    · rw [average_eq]

/-- Witness for C1 at a concrete input: the mean of `(1,2)` and `(3,6)`. -/
theorem centroid_is_coordinatewise_mean_witness :
    (average [⟨1, 2, none⟩, ⟨3, 6, none⟩] "c").x =
      (([⟨1, 2, none⟩, ⟨3, 6, none⟩] : List Point).map Point.x).sum /
        ([⟨1, 2, none⟩, ⟨3, 6, none⟩] : List Point).length ∧
    (average [⟨1, 2, none⟩, ⟨3, 6, none⟩] "c").y =
      (([⟨1, 2, none⟩, ⟨3, 6, none⟩] : List Point).map Point.y).sum /
        ([⟨1, 2, none⟩, ⟨3, 6, none⟩] : List Point).length :=
  centroid_is_coordinatewise_mean.1 [⟨1, 2, none⟩, ⟨3, 6, none⟩] "c" (by simp)

/-- Claim C7 counterexample: with a defined centroid whose color tag is
`undefined`, `iterate` does not keep the previous centroid's (absent) color —
the JS default parameter replaces it with `"red"`. -/
theorem iterate_sticky_color_counterexample :
    iterate [⟨[⟨0, 0, none⟩], some ⟨0, 0, none⟩⟩] =
      .ok [⟨[⟨0, 0, none⟩], some ⟨0, 0, some "red"⟩⟩] ∧
    (some "red" ≠ (none : Option String)) := by
  constructor
  · norm_num [iterate, average]
  · simp

/-- Claim C7 as amended: for every cluster array with all centroids defined,
`iterate` returns the array of new clusters in which each cluster's centroid
is the coordinate-wise mean of that cluster's current points tagged with the
color of that cluster's previous centroid — except that a previous centroid
with no color tag yields the default color `"red"` — and each output
cluster's `points` field is the corresponding input cluster's point list;
the input clusters are not modified (the output is a fresh list). -/
theorem iterate_spec (cs : List Cluster) (h : ∀ c ∈ cs, c.centroid.isSome) :
    iterate cs = .ok (cs.map fun c =>
      { points := c.points,
        centroid := c.centroid.map fun p0 =>
          { x := (c.points.map Point.x).sum / c.points.length,
            y := (c.points.map Point.y).sum / c.points.length,
            color := some (p0.color.getD "red") } }) := by
  rw [iterate_eq_map cs h]
  refine congrArg Except.ok ?_
  apply List.map_congr_left
  intro c _
  have hfun : (fun p0 : Point => average c.points (p0.color.getD "red")) =
      fun p0 : Point =>
        ({ x := (c.points.map Point.x).sum / c.points.length,
           y := (c.points.map Point.y).sum / c.points.length,
           color := some (p0.color.getD "red") } : Point) := by
    funext p0
    rw [average_eq]
  rw [hfun]

/-- Witness for C7 at a concrete input. -/
theorem iterate_spec_witness :
    iterate [⟨[⟨1, 2, some "A"⟩, ⟨3, 6, some "A"⟩], some ⟨5, 5, some "A"⟩⟩] =
      .ok (([⟨[⟨1, 2, some "A"⟩, ⟨3, 6, some "A"⟩], some ⟨5, 5, some "A"⟩⟩] : List Cluster).map fun c =>
      { points := c.points,
        centroid := c.centroid.map fun p0 =>
          { x := (c.points.map Point.x).sum / c.points.length,
            y := (c.points.map Point.y).sum / c.points.length,
            color := some (p0.color.getD "red") } }) :=
  iterate_spec [⟨[⟨1, 2, some "A"⟩, ⟨3, 6, some "A"⟩], some ⟨5, 5, some "A"⟩⟩]
    (by intro c hc; simp at hc; rw [hc]; rfl)

/-- Claim C8 counterexample: `normalize_raw_data` leaves the rows' `d1`/`d2`
holding the normalized coordinates, not the parsed numeric form of the
original strings: for the rows `("10","5")`, `("30","25")` the first row ends
as `(num 0, num 0)`, which is neither the parsed `10` nor the string `"10"`. -/
theorem normalize_mutation_counterexample :
    (normalize_raw_data "c" [⟨.num 0, .str 10, .str 5⟩, ⟨.num 1, .str 30, .str 25⟩]).2 =
      [⟨.num 0, .num 0, .num 0⟩, ⟨.num 1, .num 1, .num 1⟩] ∧
    RVal.num 0 ≠ RVal.num 10 ∧ RVal.num (0 : ℚ) ≠ RVal.str 10 := by
  refine ⟨?_, by simp, by simp⟩
  norm_num [normalize_raw_data, get_min_max_raw_data, gmm_loop, nrd_loop, RVal.toNum,
    MAX_SAFE_INTEGER]

/-- Claim C8 as amended: `normalize_raw_data` mutates every input row's
`d1`/`d2` in place to numeric (`num`) values — first coerced from strings,
then overwritten by the normalized coordinates, so the final field value is
the normalized coordinate, not the raw parsed value — a one-way transition
away from the string form, which is why re-running normalization over the
same rows is not the same computation as the first run. -/
theorem normalize_mutates_rows (color : String) (data : List RawData) :
    (normalize_raw_data color data).2 = (data.map fun r =>
      { index := r.index,
        d1 := RVal.num ((r.d1.toNum - (get_min_max_raw_data data).1.min_x) /
              ((get_min_max_raw_data data).1.max_x - (get_min_max_raw_data data).1.min_x)),
        d2 := RVal.num ((r.d2.toNum - (get_min_max_raw_data data).1.min_y) /
              ((get_min_max_raw_data data).1.max_y - (get_min_max_raw_data data).1.min_y)) })
    ∧ ∀ r2 ∈ (normalize_raw_data color data).2,
        (∃ v, r2.d1 = RVal.num v) ∧ (∃ v, r2.d2 = RVal.num v) := by
  refine ⟨normalize_raw_data_snd color data, ?_⟩
  intro r2 hr2
  rw [normalize_raw_data_snd color data] at hr2
  obtain ⟨r, _, hr⟩ := List.mem_map.mp hr2
  rw [← hr]
  exact ⟨⟨_, rfl⟩, ⟨_, rfl⟩⟩

/-- Claim C9: on an empty points list — a state `reassignment_logic` can
produce when every point of a cluster is nearer to another centroid —
`average` divides `0` by `0`, so `iterate` yields a defined centroid whose
coordinates are both `NaN` (JS-number model), with no error raised and the
centroid not left `undefined`. -/
theorem empty_cluster_average_nan :
    (∀ color : String, averageJS [] color = ⟨.nan, .nan, some color⟩)
    ∧ (∀ (c : ClusterJS) (q : PointJS), c.points = [] → c.centroid = some q →
        iterateJS [c] = .ok [⟨[], some ⟨.nan, .nan, some (q.color.getD "red")⟩⟩])
    ∧ reassignment_logic
        [⟨[⟨1, 0, some "A"⟩], some ⟨0, 0, some "A"⟩⟩, ⟨[], some ⟨1, 0, some "B"⟩⟩] =
      .ok [⟨[], some ⟨0, 0, some "A"⟩⟩, ⟨[⟨1, 0, some "B"⟩], some ⟨1, 0, some "B"⟩⟩] := by
  refine ⟨fun color => rfl, ?_, ?_⟩
  · intro c q h1 h2
    obtain ⟨ps, cen⟩ := c
    simp only at h1 h2
    subst h1
    subst h2
    rfl
  · norm_num [reassignment_logic, assign_all, closest_point_scan, distSq, MAX_SAFE_INTEGER]
    rfl

/-- Witness for C9 at a concrete input. -/
theorem empty_cluster_average_nan_witness :
    iterateJS [⟨[], some ⟨.num 0, .num 0, some "A"⟩⟩] =
      .ok [⟨[], some ⟨.nan, .nan, some "A"⟩⟩] :=
  empty_cluster_average_nan.2.1 ⟨[], some ⟨.num 0, .num 0, some "A"⟩⟩
    ⟨.num 0, .num 0, some "A"⟩ rfl rfl

/-- Claim C10: with `cluster_size = 0` both initializers return the empty
cluster array and silently drop every input point (`i % 0` is `NaN` in JS and
never equals `0`, so no cluster is ever created and the loop counter never
advances); no error is raised and no remainder cluster is produced. -/
theorem cluster_size_zero_empty :
    (∀ (colors : ℕ → String) (pts : List Point),
      divide_and_set_clusters colors pts 0 = [])
    ∧ (∀ (colors : ℕ → String) (rows : List CsvRow),
      divide_data_set_clusters colors rows 0 = []) := by
  constructor
  · intro colors pts
    rw [divide_and_set_clusters, dasc_loop_zero]
    rfl
  · intro colors rows
    rw [divide_data_set_clusters, dasc_loop_zero]
    rfl

theorem getElem_eq_of_list_eq {α : Type} (l1 l2 : List α) (h : l1 = l2) (k : ℕ)
    (hk1 : k < l1.length) (hk2 : k < l2.length) : l1[k] = l2[k] := by
  subst h
  rfl

/-- Claim C2 counterexample: with one cluster whose centroid is defined, a
point at distance `2^53 ≥ MAX_SAFE_INTEGER` from the centroid never beats the
`MAX_SAFE_INTEGER` sentinel, so `reassignment_logic` drops it: the total
point count falls from 1 to 0 even though K = 1. -/
theorem partition_totality_counterexample :
    reassignment_logic [⟨[⟨2 ^ 53, 0, none⟩], some ⟨0, 0, some "A"⟩⟩] =
      .ok [⟨[], some ⟨0, 0, some "A"⟩⟩] ∧
    (([⟨[], some ⟨0, 0, some "A"⟩⟩] : List Cluster).map fun c => c.points.length).sum ≠
      (([⟨[⟨2 ^ 53, 0, none⟩], some ⟨0, 0, some "A"⟩⟩] : List Cluster).map
        fun c => c.points.length).sum := by
  constructor
  · norm_num [reassignment_logic, assign_all, closest_point_scan, distSq, MAX_SAFE_INTEGER]
  · simp

/-- Claim C2 as amended: the sum of cluster sizes after initialization (both
initializers) equals the input length for every `cluster_size ≥ 1`; and
`reassignment_logic` preserves the total point count for every cluster array
with all centroids defined, provided every pooled point lies at squared
distance `< MAX_SAFE_INTEGER ^ 2` of at least one centroid (points beyond the
`MAX_SAFE_INTEGER` sentinel are dropped as unassignable); with K = 0 clusters
the pool is empty and the total is trivially preserved at 0. -/
theorem partition_totality :
    (∀ (colors : ℕ → String) (pts : List Point) (n : ℕ), n ≠ 0 →
      ((divide_and_set_clusters colors pts n).map fun c => c.points.length).sum = pts.length)
    ∧ (∀ (colors : ℕ → String) (rows : List CsvRow) (n : ℕ), n ≠ 0 →
      ((divide_data_set_clusters colors rows n).map fun c => c.points.length).sum = rows.length)
    ∧ (∀ (cs : List Cluster) (cents : List Point),
        cs.map Cluster.centroid = cents.map some →
        (∀ p ∈ pool cs, ∃ k, ∃ hk : k < cents.length,
          distSq (cents.get ⟨k, hk⟩) p < MAX_SAFE_INTEGER ^ 2) →
        ∃ D, reassignment_logic cs = .ok D ∧
          (D.map fun c => c.points.length).sum = (cs.map fun c => c.points.length).sum)
    ∧ reassignment_logic [] = .ok [] := by
  refine ⟨?_, ?_, ?_, rfl⟩
  · intro colors pts n hn
    rw [divide_and_set_clusters, set_centroids_sum,
      dasc_loop_sum colors n hn pts 0 "" [] (Or.inl (Nat.zero_mod n))]
    simp
  · intro colors rows n hn
    rw [divide_data_set_clusters, set_centroids_sum,
      dasc_loop_sum colors n hn _ 0 "" [] (Or.inl (Nat.zero_mod n))]
    simp
  · intro cs cents hmap hrange
    exact reassignment_preserves_count cs cents hmap hrange

/-- Witness for C2 at concrete inputs: 3 points into clusters of size 2, and
one preserved reassignment. -/
theorem partition_totality_witness :
    ((divide_and_set_clusters (fun _ => "c") [⟨0, 0, none⟩, ⟨1, 1, none⟩, ⟨2, 2, none⟩] 2).map
      fun c => c.points.length).sum = 3 ∧
    ∃ D, reassignment_logic [⟨[⟨0, 0, some "A"⟩], some ⟨0, 0, some "A"⟩⟩] = .ok D ∧
      (D.map fun c => c.points.length).sum =
        (([⟨[⟨0, 0, some "A"⟩], some ⟨0, 0, some "A"⟩⟩] : List Cluster).map
          fun c => c.points.length).sum := by
  constructor
  · exact partition_totality.1 (fun _ => "c") [⟨0, 0, none⟩, ⟨1, 1, none⟩, ⟨2, 2, none⟩] 2
      (by simp)
  · refine partition_totality.2.2.1 [⟨[⟨0, 0, some "A"⟩], some ⟨0, 0, some "A"⟩⟩]
      [⟨0, 0, some "A"⟩] rfl ?_
    intro p hp
    simp only [pool, List.map_cons, List.map_nil, List.flatten] at hp
    have hp2 : p = ⟨0, 0, some "A"⟩ := by simpa using hp
    subst hp2
    exact ⟨0, by simp, by norm_num [distSq, MAX_SAFE_INTEGER]⟩

/-- Claim C3 counterexample: a point at distance `≥ MAX_SAFE_INTEGER` from
every centroid is assigned to no cluster at all (both result clusters are
empty), contradicting "every point is assigned to the cluster with the
strictly smallest distance". -/
theorem nearest_assignment_counterexample :
    reassignment_logic [⟨[⟨2 ^ 53, 2 ^ 53, none⟩], some ⟨0, 0, some "A"⟩⟩,
        ⟨[], some ⟨1, 1, some "B"⟩⟩] =
      .ok [⟨[], some ⟨0, 0, some "A"⟩⟩, ⟨[], some ⟨1, 1, some "B"⟩⟩] := by
  norm_num [reassignment_logic, assign_all, closest_point_scan, distSq, MAX_SAFE_INTEGER]
  rfl

/-- Claim C3 as amended: in `reassignment_logic`, every point whose distance
to some centroid is below the `MAX_SAFE_INTEGER` sentinel is assigned to the
cluster whose centroid has the strictly smallest Euclidean distance (squared
model), with ties broken towards the lowest index, and its color is
overwritten to that centroid's color; points with no centroid below the
sentinel are dropped.  Includes the spec's tie test: centroids `(0,0)`/"A"
and `(1,0)`/"B" with point `(0.5, 0)` go to cluster 0 with color "A". -/
theorem nearest_assignment :
    (∀ (cents : List Point) (p : Point) (j : ℕ), assignIdx cents p = some j →
      ∃ hj : j < cents.length,
        distSq (cents.get ⟨j, hj⟩) p < MAX_SAFE_INTEGER ^ 2 ∧
        (∀ k (hk : k < cents.length),
          distSq (cents.get ⟨j, hj⟩) p ≤ distSq (cents.get ⟨k, hk⟩) p) ∧
        (∀ k (hk : k < cents.length), k < j →
          distSq (cents.get ⟨j, hj⟩) p < distSq (cents.get ⟨k, hk⟩) p) ∧
        assignCol cents p = (cents.get ⟨j, hj⟩).color)
    ∧ (∀ (cents : List Point) (p : Point) (k : ℕ) (hk : k < cents.length),
        distSq (cents.get ⟨k, hk⟩) p < MAX_SAFE_INTEGER ^ 2 →
        ∃ j, assignIdx cents p = some j)
    ∧ (∀ (cs : List Cluster) (cents : List Point) (D : List Cluster),
        cs.map Cluster.centroid = cents.map some →
        reassignment_logic cs = .ok D →
        ∀ (k : ℕ) (hk : k < D.length),
          (D.get ⟨k, hk⟩).points =
            ((pool cs).filter fun p => assignIdx cents p == some k).map (recolor cents))
    ∧ reassignment_logic
        [⟨[⟨1/2, 0, none⟩], some ⟨0, 0, some "A"⟩⟩, ⟨[], some ⟨1, 0, some "B"⟩⟩] =
      .ok [⟨[⟨1/2, 0, some "A"⟩], some ⟨0, 0, some "A"⟩⟩, ⟨[], some ⟨1, 0, some "B"⟩⟩] := by
  refine ⟨?_, ?_, ?_, ?_⟩
  · intro cents p j h
    exact assignIdx_spec_some cents p j h
  · intro cents p k hk hlt
    exact assignIdx_isSome_of cents p k hk hlt
  · intro cs cents D hmap hok k hk
    have hrs := reassignment_logic_ok cs cents hmap
    rw [hok] at hrs
    have hD : D = reassignSpec cents (pool cs) 0 cs := Except.ok.inj hrs
    have hkcs : k < cs.length := by
      rw [hD, reassignSpec_length] at hk
      exact hk
    have hk2 : k < (reassignSpec cents (pool cs) 0 cs).length := by
      rw [reassignSpec_length]
      exact hkcs
    rw [show D.get ⟨k, hk⟩ = D[k] from rfl,
      getElem_eq_of_list_eq D _ hD k hk hk2,
      reassignSpec_getElem cents (pool cs) cs 0 k hkcs hk2]
    show assignedList cents (0 + k) (pool cs) = _
    rw [Nat.zero_add]
    rfl
  · norm_num [reassignment_logic, assign_all, closest_point_scan, distSq, MAX_SAFE_INTEGER]
    rfl

/-- Witness for C3 at the spec's tie-test input. -/
theorem nearest_assignment_witness :
    ∃ j, assignIdx [⟨0, 0, some "A"⟩, ⟨1, 0, some "B"⟩] ⟨1/2, 0, none⟩ = some j :=
  nearest_assignment.2.1 [⟨0, 0, some "A"⟩, ⟨1, 0, some "B"⟩] ⟨1/2, 0, none⟩ 0 (by simp)
    (by norm_num [distSq, MAX_SAFE_INTEGER])

/-- Claim C4 counterexample: a cluster set on which `iterate` reproduces the
input centroids exactly (each centroid is already the mean of its own
points), but where a point of cluster 0 is nearer to centroid 1, so a
reassign+iterate cycle moves it and changes centroid 0 from `(1/2,0)` to
`(0,0)`: `iterate`-stability alone is not a fixed point of the cycle. -/
theorem convergence_idempotence_counterexample :
    iterate [⟨[⟨0, 0, some "A"⟩, ⟨1, 0, some "A"⟩], some ⟨1/2, 0, some "A"⟩⟩,
             ⟨[⟨9/10, 0, some "B"⟩], some ⟨9/10, 0, some "B"⟩⟩] =
      .ok [⟨[⟨0, 0, some "A"⟩, ⟨1, 0, some "A"⟩], some ⟨1/2, 0, some "A"⟩⟩,
           ⟨[⟨9/10, 0, some "B"⟩], some ⟨9/10, 0, some "B"⟩⟩] ∧
    reassignment_logic [⟨[⟨0, 0, some "A"⟩, ⟨1, 0, some "A"⟩], some ⟨1/2, 0, some "A"⟩⟩,
             ⟨[⟨9/10, 0, some "B"⟩], some ⟨9/10, 0, some "B"⟩⟩] =
      .ok [⟨[⟨0, 0, some "A"⟩], some ⟨1/2, 0, some "A"⟩⟩,
           ⟨[⟨1, 0, some "B"⟩, ⟨9/10, 0, some "B"⟩], some ⟨9/10, 0, some "B"⟩⟩] ∧
    iterate [⟨[⟨0, 0, some "A"⟩], some ⟨1/2, 0, some "A"⟩⟩,
             ⟨[⟨1, 0, some "B"⟩, ⟨9/10, 0, some "B"⟩], some ⟨9/10, 0, some "B"⟩⟩] =
      .ok [⟨[⟨0, 0, some "A"⟩], some ⟨0, 0, some "A"⟩⟩,
           ⟨[⟨1, 0, some "B"⟩, ⟨9/10, 0, some "B"⟩], some ⟨19/20, 0, some "B"⟩⟩] ∧
    ([⟨[⟨0, 0, some "A"⟩], some ⟨0, 0, some "A"⟩⟩,
      ⟨[⟨1, 0, some "B"⟩, ⟨9/10, 0, some "B"⟩], some ⟨19/20, 0, some "B"⟩⟩] : List Cluster).map
        Cluster.centroid ≠
      ([⟨[⟨0, 0, some "A"⟩, ⟨1, 0, some "A"⟩], some ⟨1/2, 0, some "A"⟩⟩,
        ⟨[⟨9/10, 0, some "B"⟩], some ⟨9/10, 0, some "B"⟩⟩] : List Cluster).map
        Cluster.centroid := by
  refine ⟨?_, ?_, ?_, ?_⟩
  · norm_num [iterate, average]
  · norm_num [reassignment_logic, assign_all, closest_point_scan, distSq, MAX_SAFE_INTEGER]
    rfl
  · norm_num [iterate, average]
  · norm_num

/-- Claim C4 as amended: the fixed point is of the full cycle — whenever one
`reassignment_logic`+`iterate` pass reproduces the input's centroids (same
coordinates and colors in order), a further `reassignment_logic`+`iterate`
pass again yields those same centroids. -/
theorem cycle_fixed_point (cs D C1 : List Cluster)
    (hr : reassignment_logic cs = .ok D) (hi : iterate D = .ok C1)
    (hc : C1.map Cluster.centroid = cs.map Cluster.centroid) :
    ∃ D2 C2, reassignment_logic C1 = .ok D2 ∧ iterate D2 = .ok C2 ∧
      C2.map Cluster.centroid = C1.map Cluster.centroid ∧
      C2.map Cluster.centroid = cs.map Cluster.centroid := by
  obtain ⟨h1, h2⟩ := cycle_fixed_point_aux cs D C1 hr hi hc
  exact ⟨D, C1, h1, h2, rfl, hc⟩

/-- Witness for C4 at a concrete converged state. -/
theorem cycle_fixed_point_witness :
    ∃ D2 C2,
      reassignment_logic [⟨[⟨0, 0, some "A"⟩], some ⟨0, 0, some "A"⟩⟩] = .ok D2 ∧
      iterate D2 = .ok C2 ∧
      C2.map Cluster.centroid =
        ([⟨[⟨0, 0, some "A"⟩], some ⟨0, 0, some "A"⟩⟩] : List Cluster).map Cluster.centroid ∧
      C2.map Cluster.centroid =
        ([⟨[⟨0, 0, some "A"⟩], some ⟨0, 0, some "A"⟩⟩] : List Cluster).map Cluster.centroid :=
  cycle_fixed_point [⟨[⟨0, 0, some "A"⟩], some ⟨0, 0, some "A"⟩⟩]
    [⟨[⟨0, 0, some "A"⟩], some ⟨0, 0, some "A"⟩⟩]
    [⟨[⟨0, 0, some "A"⟩], some ⟨0, 0, some "A"⟩⟩]
    (by norm_num [reassignment_logic, assign_all, closest_point_scan, distSq,
      MAX_SAFE_INTEGER])
    (by norm_num [iterate, average])
    rfl

/-- Claim C5 counterexample: with all-negative data the computed `max_x` is
the initial accumulator `0`, not the true maximum `-10`, and the max-valued
row normalizes to `(2/3, 2/3)` instead of `(1,1)`. -/
theorem normalization_counterexample :
    (get_min_max_raw_data
        [⟨.num 0, .str (-30), .str (-30)⟩, ⟨.num 1, .str (-10), .str (-10)⟩]).1.max_x = 0 ∧
    ((-10 : ℚ) ≠ 0) ∧
    (normalize_raw_data "c"
        [⟨.num 0, .str (-30), .str (-30)⟩, ⟨.num 1, .str (-10), .str (-10)⟩]).1 =
      [⟨0, 0, some "c"⟩, ⟨2/3, 2/3, some "c"⟩] ∧
    ((2 : ℚ)/3 ≠ 1) := by
  refine ⟨?_, by norm_num, ?_, by norm_num⟩
  · norm_num [get_min_max_raw_data, gmm_loop, RVal.toNum, MAX_SAFE_INTEGER]
  · norm_num [normalize_raw_data, get_min_max_raw_data, gmm_loop, nrd_loop, RVal.toNum,
      MAX_SAFE_INTEGER]

/-- Claim C5 as amended: for nonempty data whose coerced `d1`/`d2` values all
lie in `[0, MAX_SAFE_INTEGER]` (so the `0` / `MAX_SAFE_INTEGER` initial
accumulators cannot distort the scan), `get_min_max_raw_data` computes the
true global minima and maxima, `normalize_raw_data` maps each row to
`((d1-min_x)/(max_x-min_x), (d2-min_y)/(max_y-min_y))` with one shared color,
and when each axis has distinct min and max the min value normalizes to `0`
and the max value to `1` (so the min-valued row maps to `(0,0)` and the
max-valued row to `(1,1)`). -/
theorem normalize_raw_data_spec (color : String) (data : List RawData)
    (hne : data ≠ [])
    (hb : ∀ r ∈ data, 0 ≤ r.d1.toNum ∧ r.d1.toNum ≤ MAX_SAFE_INTEGER ∧
      0 ≤ r.d2.toNum ∧ r.d2.toNum ≤ MAX_SAFE_INTEGER) :
    (∀ r ∈ data, (get_min_max_raw_data data).1.min_x ≤ r.d1.toNum ∧
        r.d1.toNum ≤ (get_min_max_raw_data data).1.max_x ∧
        (get_min_max_raw_data data).1.min_y ≤ r.d2.toNum ∧
        r.d2.toNum ≤ (get_min_max_raw_data data).1.max_y)
    ∧ (∃ r ∈ data, r.d1.toNum = (get_min_max_raw_data data).1.min_x)
    ∧ (∃ r ∈ data, r.d1.toNum = (get_min_max_raw_data data).1.max_x)
    ∧ (∃ r ∈ data, r.d2.toNum = (get_min_max_raw_data data).1.min_y)
    ∧ (∃ r ∈ data, r.d2.toNum = (get_min_max_raw_data data).1.max_y)
    ∧ (normalize_raw_data color data).1 = (data.map fun r =>
        ({ x := (r.d1.toNum - (get_min_max_raw_data data).1.min_x) /
                ((get_min_max_raw_data data).1.max_x - (get_min_max_raw_data data).1.min_x),
           y := (r.d2.toNum - (get_min_max_raw_data data).1.min_y) /
                ((get_min_max_raw_data data).1.max_y - (get_min_max_raw_data data).1.min_y),
           color := some color } : Point))
    ∧ ((get_min_max_raw_data data).1.min_x < (get_min_max_raw_data data).1.max_x →
        ((get_min_max_raw_data data).1.min_x - (get_min_max_raw_data data).1.min_x) /
          ((get_min_max_raw_data data).1.max_x - (get_min_max_raw_data data).1.min_x) = 0 ∧
        ((get_min_max_raw_data data).1.max_x - (get_min_max_raw_data data).1.min_x) /
          ((get_min_max_raw_data data).1.max_x - (get_min_max_raw_data data).1.min_x) = 1)
    ∧ ((get_min_max_raw_data data).1.min_y < (get_min_max_raw_data data).1.max_y →
        ((get_min_max_raw_data data).1.min_y - (get_min_max_raw_data data).1.min_y) /
          ((get_min_max_raw_data data).1.max_y - (get_min_max_raw_data data).1.min_y) = 0 ∧
        ((get_min_max_raw_data data).1.max_y - (get_min_max_raw_data data).1.min_y) /
          ((get_min_max_raw_data data).1.max_y - (get_min_max_raw_data data).1.min_y) = 1) := by
  have hfst : (get_min_max_raw_data data).1 =
      { min_x := (data.map fun r => r.d1.toNum).foldl min MAX_SAFE_INTEGER,
        min_y := (data.map fun r => r.d2.toNum).foldl min MAX_SAFE_INTEGER,
        max_x := (data.map fun r => r.d1.toNum).foldl max 0,
        max_y := (data.map fun r => r.d2.toNum).foldl max 0 } := gmm_loop_fst data _
  obtain ⟨r0, hr0⟩ := List.exists_mem_of_ne_nil data hne
  refine ⟨?_, ?_, ?_, ?_, ?_, normalize_raw_data_fst color data, ?_, ?_⟩
  · intro r hr
    rw [hfst]
    exact ⟨foldl_min_le_mem _ _ _ (List.mem_map_of_mem _ hr),
      foldl_max_ge_mem _ _ _ (List.mem_map_of_mem _ hr),
      foldl_min_le_mem _ _ _ (List.mem_map_of_mem _ hr),
      foldl_max_ge_mem _ _ _ (List.mem_map_of_mem _ hr)⟩
  · rw [hfst]
    rcases foldl_min_eq_init_or_mem (data.map fun r => r.d1.toNum) MAX_SAFE_INTEGER
      with heq | hmem
    · refine ⟨r0, hr0, ?_⟩
      have h1 : (data.map fun r => r.d1.toNum).foldl min MAX_SAFE_INTEGER ≤ r0.d1.toNum :=
        foldl_min_le_mem _ _ _ (List.mem_map_of_mem _ hr0)
      have h2 : r0.d1.toNum ≤ MAX_SAFE_INTEGER := (hb r0 hr0).2.1
      rw [heq] at h1 ⊢
      exact le_antisymm h2 h1
    · obtain ⟨r, hr, hval⟩ := List.mem_map.mp hmem
      exact ⟨r, hr, hval⟩
  · rw [hfst]
    rcases foldl_max_eq_init_or_mem (data.map fun r => r.d1.toNum) 0 with heq | hmem
    · refine ⟨r0, hr0, ?_⟩
      have h1 : r0.d1.toNum ≤ (data.map fun r => r.d1.toNum).foldl max 0 :=
        foldl_max_ge_mem _ _ _ (List.mem_map_of_mem _ hr0)
      have h2 : 0 ≤ r0.d1.toNum := (hb r0 hr0).1
      rw [heq] at h1 ⊢
      exact le_antisymm h1 h2
    · obtain ⟨r, hr, hval⟩ := List.mem_map.mp hmem
      exact ⟨r, hr, hval⟩
  · rw [hfst]
    rcases foldl_min_eq_init_or_mem (data.map fun r => r.d2.toNum) MAX_SAFE_INTEGER
      with heq | hmem
    · refine ⟨r0, hr0, ?_⟩
      have h1 : (data.map fun r => r.d2.toNum).foldl min MAX_SAFE_INTEGER ≤ r0.d2.toNum :=
        foldl_min_le_mem _ _ _ (List.mem_map_of_mem _ hr0)
      have h2 : r0.d2.toNum ≤ MAX_SAFE_INTEGER := (hb r0 hr0).2.2.2
      rw [heq] at h1 ⊢
      exact le_antisymm h2 h1
    · obtain ⟨r, hr, hval⟩ := List.mem_map.mp hmem
      exact ⟨r, hr, hval⟩
  · rw [hfst]
    rcases foldl_max_eq_init_or_mem (data.map fun r => r.d2.toNum) 0 with heq | hmem
    · refine ⟨r0, hr0, ?_⟩
      have h1 : r0.d2.toNum ≤ (data.map fun r => r.d2.toNum).foldl max 0 :=
        foldl_max_ge_mem _ _ _ (List.mem_map_of_mem _ hr0)
      have h2 : 0 ≤ r0.d2.toNum := (hb r0 hr0).2.2.1
      rw [heq] at h1 ⊢
      exact le_antisymm h1 h2
    · obtain ⟨r, hr, hval⟩ := List.mem_map.mp hmem
      exact ⟨r, hr, hval⟩
  · intro hlt
    constructor
    · rw [sub_self, zero_div]
    · exact div_self (sub_ne_zero.mpr (ne_of_gt hlt))
  · intro hlt
    constructor
    · rw [sub_self, zero_div]
    · exact div_self (sub_ne_zero.mpr (ne_of_gt hlt))

/-- Witness for C5 at the spec's example data (`d1 ∈ {10,20,30}`,
`d2 ∈ {5,15,25}`): the minimum of `d1` is attained. -/
theorem normalize_raw_data_spec_witness :
    ∃ r ∈ ([⟨.num 0, .str 10, .str 5⟩, ⟨.num 1, .str 20, .str 15⟩,
        ⟨.num 2, .str 30, .str 25⟩] : List RawData),
      r.d1.toNum = (get_min_max_raw_data
        [⟨.num 0, .str 10, .str 5⟩, ⟨.num 1, .str 20, .str 15⟩,
         ⟨.num 2, .str 30, .str 25⟩]).1.min_x :=
  (normalize_raw_data_spec "c"
    [⟨.num 0, .str 10, .str 5⟩, ⟨.num 1, .str 20, .str 15⟩, ⟨.num 2, .str 30, .str 25⟩]
    (by simp)
    (by
      intro r hr
      simp only [List.mem_cons, List.not_mem_nil, or_false] at hr
      rcases hr with h | h | h <;> subst h <;>
        norm_num [RVal.toNum, MAX_SAFE_INTEGER])).2.1

/-- Claim C6 counterexample: a cluster array with an undefined centroid but
no points at all makes `reassignment_logic` return normally (the point loop
never runs), so it does not fail for *every* array with an undefined
centroid. -/
theorem undefined_centroid_counterexample :
    reassignment_logic [⟨[], none⟩] = .ok [⟨[], none⟩] ∧
    ∀ e, reassignment_logic [⟨[], none⟩] ≠ .error e := by
  constructor
  · rfl
  · intro e h
    rw [show reassignment_logic [⟨[], none⟩] = .ok [⟨[], none⟩] from rfl] at h
    exact Except.noConfusion h

/-- Claim C6 as amended: `reassignment_logic` throws exactly the error
"Cluster centroid is undefined" precisely when some cluster's centroid is
undefined *and* the flattened point pool is nonempty; this is the only error
it can produce, and in the `Except` model the failure is immediate and
terminal. -/
theorem undefined_centroid_error (cs : List Cluster) :
    (reassignment_logic cs = .error "Cluster centroid is undefined" ↔
      none ∈ cs.map Cluster.centroid ∧ pool cs ≠ [])
    ∧ (∀ e, reassignment_logic cs = .error e → e = "Cluster centroid is undefined") :=
  ⟨reassignment_logic_error_iff cs, fun e h => reassignment_logic_error_eq cs e h⟩

/-- Witness for C6 at a concrete input: one point, undefined centroid. -/
theorem undefined_centroid_error_witness :
    reassignment_logic [⟨[⟨0, 0, none⟩], none⟩] = .error "Cluster centroid is undefined" :=
  (undefined_centroid_error [⟨[⟨0, 0, none⟩], none⟩]).1.mpr
    ⟨by simp, by simp [pool]⟩

end KMeans
